import Mathlib

/-!
# Verification of the IEBus bit-bang utility

A shallow embedding of the IEBus message codec (`IEBusMessage.py`), the line
signal encoder (`IEBusBitBang.py`) and the transmission timeline composer
(`BitBangUtility.py`), together with proofs of the specified properties.

Modelling conventions:
* A Python `bytearray` is a `List Nat` whose entries are below 256
  (the predicate `BytesOk`).
* `struct.unpack_from('>L', buf, k)` / `struct.pack_into('>L', buf, k, v)`
  are modelled by `unpack_from` / `pack_into`; both return `none` exactly
  when Python raises (`struct.error`): fewer than 4 bytes available, or a
  packed value not below `2 ^ 32`.
* Python's `valuePtr & ~bitMask` on a non-negative `valuePtr` clears the
  bits of `bitMask`; it is modelled as `valuePtr - (valuePtr &&& bitMask)`,
  which agrees with it on every natural number.
* Fallible constructors (`int(s, 16)` raising, field writes out of range)
  return `Option`.
* The shift `32 - LengthBits - BitOffset % 8` is a natural number here; it
  agrees with Python's signed expression whenever the field fits its
  32-bit window (`LengthBits + BitOffset % 8 ≤ 32`, true of every protocol
  field and hypothesised elsewhere), where Python would otherwise raise on
  a negative shift count.
* While-loops over `value >>= 1` are written with an explicit fuel argument
  equal to the initial value; the value at least halves each iteration, so
  this fuel always suffices (and keeps every definition kernel-reducible).
-/

namespace IEBus

/-! ## Odd parity (`calculateParity`, IEBusMessage.py lines 271-289) -/

/-- The loop body of `calculateParity`: `fuel` bounds the iteration count of
the Python `while value != 0` loop (the value halves each round, so an
initial fuel of `value` itself suffices). -/
def parityGo (p : Bool) (value : Nat) : Nat → Bool
  | 0 => p
  | fuel + 1 =>
    if value = 0 then p
    else parityGo (if value % 2 = 1 then !p else p) (value / 2) fuel

/-- `calculateParity(value)`: fold all set bits of `value` with xor;
starts from `False`, flips on each set low bit, shifting right until zero. -/
def calculateParity (value : Nat) : Bool :=
  parityGo false value value

/-! ## The message buffer (`IEBusMessage.py`) -/

/-- The message byte buffer (Python `bytearray`). -/
abbrev Buffer := List Nat

/-- Invariant of a Python `bytearray`: every entry is one byte. -/
def BytesOk (buf : Buffer) : Prop := ∀ b ∈ buf, b < 256

instance : DecidablePred BytesOk := fun buf =>
  inferInstanceAs (Decidable (∀ b ∈ buf, b < 256))

/-- A field of the message: bit position and width (`IEBusMessageField`). -/
structure IEBusMessageField where
  BitOffset : Nat
  LengthBits : Nat

/-- The big-endian 32-bit value of the four bytes at `start`
(the value `struct.unpack_from('>L', buf, start)` computes). -/
def unpack_word (buf : Buffer) (start : Nat) : Nat :=
  (buf.getD start 0) <<< 24 ||| (buf.getD (start + 1) 0) <<< 16 |||
    (buf.getD (start + 2) 0) <<< 8 ||| buf.getD (start + 3) 0

/-- `struct.unpack_from('>L', buf, start)`: fails when fewer than four
bytes are available from `start`. -/
def unpack_from (buf : Buffer) (start : Nat) : Option Nat :=
  if start + 4 ≤ buf.length then some (unpack_word buf start) else none

/-- The buffer with the four bytes at `start` replaced by the big-endian
representation of `val`. -/
def pack_word (buf : Buffer) (start val : Nat) : Buffer :=
  ((((buf.set start (val >>> 24 &&& 255)).set (start + 1) (val >>> 16 &&& 255)).set
      (start + 2) (val >>> 8 &&& 255)).set (start + 3) (val &&& 255))

/-- `struct.pack_into('>L', buf, start, val)`: fails when fewer than four
bytes are available from `start` or when `val` does not fit 32 bits. -/
def pack_into (buf : Buffer) (start val : Nat) : Option Buffer :=
  if start + 4 ≤ buf.length ∧ val < 2 ^ 32 then some (pack_word buf start val) else none

/-- `IEBusMessage.getField` (lines 186-194): read the 32-bit window at
`BitOffset/8`, shift right by `32 - LengthBits - BitOffset % 8`, mask to
`LengthBits` bits. -/
def getField (buf : Buffer) (field : IEBusMessageField) : Option Nat :=
  (unpack_from buf (field.BitOffset / 8)).map fun value =>
    (value >>> (32 - field.LengthBits - field.BitOffset % 8)) &&&
      ((1 <<< field.LengthBits) - 1)

/-- The updated 32-bit word written by `setField`: clear the field's bits of
the old word (Python `valuePtr & ~bitMask`, modelled as subtracting the
masked part) and or in the shifted new value. -/
def setWord (field : IEBusMessageField) (value oldWord : Nat) : Nat :=
  (oldWord - (oldWord &&&
      (((1 <<< field.LengthBits) - 1) <<< (32 - field.LengthBits - field.BitOffset % 8)))) |||
    (value <<< (32 - field.LengthBits - field.BitOffset % 8))

/-- `IEBusMessage.setField` (lines 197-209): read the 32-bit window, clear
the field's bits, or in the (unmasked!) shifted value, write the word back. -/
def setField (buf : Buffer) (field : IEBusMessageField) (value : Nat) : Option Buffer :=
  (unpack_from buf (field.BitOffset / 8)).bind fun valuePtr =>
    pack_into buf (field.BitOffset / 8) (setWord field value valuePtr)

/-- Total version of `getField` (no bounds check), used to state lemmas. -/
def getRaw (buf : Buffer) (field : IEBusMessageField) : Nat :=
  ((unpack_word buf (field.BitOffset / 8)) >>>
      (32 - field.LengthBits - field.BitOffset % 8)) &&&
    ((1 <<< field.LengthBits) - 1)

/-- Total version of `setField` (no bounds check), used to state lemmas. -/
def setRaw (buf : Buffer) (field : IEBusMessageField) (value : Nat) : Buffer :=
  pack_word buf (field.BitOffset / 8)
    (setWord field value (unpack_word buf (field.BitOffset / 8)))

/-- The `j`-th bit of the message, most-significant bit first inside each
byte: the units `bytes_to_bits` serialises and `getField` windows address. -/
def bufTestBit (buf : Buffer) (j : Nat) : Bool :=
  (buf.getD (j / 8) 0).testBit (7 - j % 8)

/-- The buffer has four whole bytes available for the window of `field`, and
the field fits inside that 32-bit window (true of every protocol field). -/
def Admissible (buf : Buffer) (field : IEBusMessageField) : Prop :=
  field.BitOffset / 8 + 4 ≤ buf.length ∧
    field.LengthBits + field.BitOffset % 8 ≤ 32

instance (buf : Buffer) (field : IEBusMessageField) : Decidable (Admissible buf field) :=
  inferInstanceAs (Decidable (_ ∧ _))

/-! ## Field layout (`IEBusMessage` class attributes, lines 66-93) -/

def Broadcast : IEBusMessageField := ⟨0, 1⟩

def MasterAddress : IEBusMessageField := ⟨1, 12⟩

def MasterAddress_P : IEBusMessageField := ⟨13, 1⟩

def SlaveAddress : IEBusMessageField := ⟨14, 12⟩

def SlaveAddress_P : IEBusMessageField := ⟨26, 1⟩

def SlaveAddress_A : IEBusMessageField := ⟨27, 1⟩

def Control : IEBusMessageField := ⟨28, 4⟩

def Control_P : IEBusMessageField := ⟨32, 1⟩

def Control_A : IEBusMessageField := ⟨33, 1⟩

def DataLength : IEBusMessageField := ⟨34, 8⟩

def DataLength_P : IEBusMessageField := ⟨42, 1⟩

def DataLength_A : IEBusMessageField := ⟨43, 1⟩

/-- 8 data bits + 1 parity + 1 ACK. -/
def DataFieldLength : Nat := 10

/-- `Data(n)`: the nth data byte. -/
def Data (n : Nat) : IEBusMessageField := ⟨44 + DataFieldLength * n, 8⟩

/-- `Data_P(n)`: parity of the nth data byte. -/
def Data_P (n : Nat) : IEBusMessageField := ⟨44 + 8 + DataFieldLength * n, 1⟩

/-- `Data_A(n)`: ACK of the nth data byte. -/
def Data_A (n : Nat) : IEBusMessageField := ⟨44 + 9 + DataFieldLength * n, 1⟩

def MaxMessageLenBytes : Nat := 64

/-- `AckValue.NAK`, the constructor-time default acknowledgement. -/
def DefaultAckVal : Nat := 1

/-! ## Construction (`IEBusMessage.__init__`, lines 106-164) -/

/-- The data loop of the constructor (`for i, val in enumerate(data)`):
write data byte `i`, its parity, and the default ACK, then continue. -/
def writeData (buf : Buffer) (i : Nat) : List Nat → Option Buffer
  | [] => some buf
  | v :: rest =>
    (setField buf (Data i) v).bind fun b1 =>
      (setField b1 (Data_P i) (calculateParity v).toNat).bind fun b2 =>
        (setField b2 (Data_A i) DefaultAckVal).bind fun b3 =>
          writeData b3 (i + 1) rest

/-- Lines 144-145 of the constructor: `if broadcast:` write the broadcast
bit. Python truthiness: an argument that is `None` or `0` behaves
identically (the field is left zero), so optional arguments are modelled
as plain values with `0` for "not supplied". -/
def bcGroup (broadcast : Nat) (buf : Buffer) : Option Buffer :=
  if broadcast ≠ 0 then setField buf Broadcast broadcast else some buf

/-- Lines 146-148: `if master_address:` write the address and its parity. -/
def masterGroup (master_address : Nat) (buf : Buffer) : Option Buffer :=
  if master_address ≠ 0 then
    (setField buf MasterAddress master_address).bind fun b =>
      setField b MasterAddress_P (calculateParity master_address).toNat
  else some buf

/-- Lines 149-152: `if slave_address:` write address, parity, default ACK. -/
def slaveGroup (slave_address : Nat) (buf : Buffer) : Option Buffer :=
  if slave_address ≠ 0 then
    (setField buf SlaveAddress slave_address).bind fun b =>
      (setField b SlaveAddress_P (calculateParity slave_address).toNat).bind
        fun b2 => setField b2 SlaveAddress_A DefaultAckVal
  else some buf

/-- Lines 153-156: `if control:` write control, parity, default ACK. -/
def controlGroup (control : Nat) (buf : Buffer) : Option Buffer :=
  if control ≠ 0 then
    (setField buf Control control).bind fun b =>
      (setField b Control_P (calculateParity control).toNat).bind
        fun b2 => setField b2 Control_A DefaultAckVal
  else some buf

/-- Lines 157-164: `if data:` write the data length (with parity and
default ACK) and then every data byte. An empty list is falsy in Python,
so it behaves like "not supplied". -/
def dataGroup (data : List Nat) (buf : Buffer) : Option Buffer :=
  if data ≠ [] then
    (setField buf DataLength data.length).bind fun b =>
      (setField b DataLength_P (calculateParity data.length).toNat).bind
        fun b2 =>
          (setField b2 DataLength_A DefaultAckVal).bind fun b3 =>
            writeData b3 0 data
  else some buf

/-- The constructor body for the structured-field path (lines 143-164):
allocate the guarded 68-byte buffer, then run the five conditional write
groups in source order. -/
def initFields (broadcast master_address slave_address control : Nat)
    (data : List Nat) : Option Buffer :=
  (bcGroup broadcast (List.replicate (MaxMessageLenBytes + 4) 0)).bind fun buf =>
    (masterGroup master_address buf).bind fun buf =>
      (slaveGroup slave_address buf).bind fun buf =>
        (controlGroup control buf).bind fun buf =>
          dataGroup data buf

/-! ## Token-string construction (lines 134-140) -/

/-- One hexadecimal digit, as accepted by Python `int(_, 16)`. -/
def hexDigitVal (c : Char) : Option Nat :=
  if '0' ≤ c ∧ c ≤ '9' then some (c.toNat - 48)
  else if 'a' ≤ c ∧ c ≤ 'f' then some (c.toNat - 87)
  else if 'A' ≤ c ∧ c ≤ 'F' then some (c.toNat - 55)
  else none

/-- `int(s, 16)` on a plain token: fails on the empty string or on any
non-hexadecimal character. -/
def parseHex (cs : List Char) : Option Nat :=
  if cs = [] then none
  else cs.foldlM (fun a c => (hexDigitVal c).map fun d => 16 * a + d) 0

/-- Helper of `splitWs`: split into words, possibly leaving empty words. -/
def splitWsAux : List Char → List (List Char)
  | [] => [[]]
  | c :: cs =>
    match splitWsAux cs with
    | [] => [[c]]
    | w :: ws => if c.isWhitespace then [] :: w :: ws else (c :: w) :: ws

/-- Python `str.split()` with no argument: split on whitespace runs,
dropping empty tokens. -/
def splitWs (cs : List Char) : List (List Char) :=
  (splitWsAux cs).filter (· ≠ [])

/-- The token-string constructor path (lines 134-140): strip colons, split
on whitespace, take `B`/other as broadcast/unicast, parse master and slave
addresses as hex, fix control to `0xF`, and parse every token from the
fourth onward as one hex data byte. Fails (as Python raises) when fewer
than three tokens are present or a hex parse fails. -/
def fromString (s : List Char) : Option Buffer :=
  match splitWs (s.filter (· ≠ ':')) with
  | p0 :: p1 :: p2 :: rest =>
    (parseHex p1).bind fun master_address =>
      (parseHex p2).bind fun slave_address =>
        (rest.mapM parseHex).bind fun data =>
          initFields (if p0 = ['B'] then 0 else 1) master_address slave_address 15 data
  | _ => none

/-! ## Validation and views (`isValid`, `getData`, `__str__`, lines 167-241) -/

/-- The data-field loop of `isValid`: check `Data_P(i) == parity(Data(i))`
for `n` consecutive indices starting at `i`. -/
def dataChecks (buf : Buffer) (i : Nat) : Nat → Option Bool
  | 0 => some true
  | n + 1 =>
    (getField buf (Data_P i)).bind fun p =>
      (getField buf (Data i)).bind fun v =>
        (dataChecks buf (i + 1) n).map fun rest =>
          (decide (p = (calculateParity v).toNat) && rest)

/-- `IEBusMessage.isValid` (lines 217-236): recompute the parity of every
parity-carrying field and compare with the stored parity bit. -/
def isValid (buf : Buffer) : Option Bool :=
  (getField buf MasterAddress_P).bind fun mp =>
    (getField buf MasterAddress).bind fun m =>
      (getField buf SlaveAddress_P).bind fun sp =>
        (getField buf SlaveAddress).bind fun s =>
          (getField buf Control_P).bind fun cp =>
            (getField buf Control).bind fun c =>
              (getField buf DataLength).bind fun n =>
                (getField buf DataLength_P).bind fun np =>
                  (dataChecks buf 0 n).map fun dOk =>
                    (decide (mp = (calculateParity m).toNat) &&
                      decide (sp = (calculateParity s).toNat) &&
                      decide (cp = (calculateParity c).toNat) &&
                      decide (np = (calculateParity n).toNat) && dOk)

/-- `IEBusMessage.getData` (lines 212-214). -/
def getData (buf : Buffer) : Option (List Nat) :=
  (getField buf DataLength).bind fun dataLen =>
    (List.range dataLen).mapM fun i => getField buf (Data i)

/-- `IEBusMessage.getLengthInBits` (lines 239-241). -/
def getLengthInBits (buf : Buffer) : Option Nat :=
  (getField buf DataLength).map fun dataLen =>
    (Data 0).BitOffset + DataFieldLength * dataLen

/-- `IEBusMessage.getAsBytes` (lines 180-183): the
`ceil(lengthInBits / 8)`-byte prefix of the buffer. -/
def getAsBytes (buf : Buffer) : Option Buffer :=
  (getLengthInBits buf).map fun lb => buf.take ((lb - 1) / 8 + 1)

/-- A digit below 16 as a lowercase hexadecimal character. -/
def hexChar (d : Nat) : Char :=
  if d < 10 then Char.ofNat (48 + d) else Char.ofNat (87 + d)

/-- Helper of `natDigits`: most-significant-first digits of `n` in `base`,
with fuel (`n / base` recursion, so fuel `n` suffices). -/
def natDigitsAux (base : Nat) : Nat → Nat → List Nat
  | 0, _ => []
  | fuel + 1, n => if n = 0 then [] else natDigitsAux base fuel (n / base) ++ [n % base]

/-- Most-significant-first digits of `n` in `base` (Python numeric
formatting), with `0` rendered as the single digit `0`. -/
def natDigits (base n : Nat) : List Nat :=
  if n = 0 then [0] else natDigitsAux base n n

/-- Left-pad to `width` with `pad` (Python format-spec padding). -/
def padLeft (pad : Char) (width : Nat) (l : List Char) : List Char :=
  List.replicate (width - l.length) pad ++ l

/-- Python `"{:0<width>x}".format(n)`: lowercase hex, zero-padded. -/
def formatHex (width n : Nat) : List Char :=
  padLeft '0' width ((natDigits 16 n).map hexChar)

/-- Python `"{:<width>d}".format(n)`: decimal, space-padded. -/
def formatDec (width n : Nat) : List Char :=
  padLeft ' ' width ((natDigits 10 n).map (fun d => Char.ofNat (48 + d)))

/-- The data part of `__str__`: `"{:02x} ".format(Data(i))` for each `i`. -/
def strDataParts (buf : Buffer) : Nat → Nat → Option (List Char)
  | _, 0 => some []
  | i, n + 1 =>
    (getField buf (Data i)).bind fun v =>
      (strDataParts buf (i + 1) n).map fun rest => (formatHex 2 v ++ [' ']) ++ rest

/-- `IEBusMessage.__str__` (lines 167-177):
`"{} {:03x} {:03x} {:01x} {:2d} : "` followed by the data bytes. -/
def msgToString (buf : Buffer) : Option (List Char) :=
  (getField buf DataLength).bind fun dataLen =>
    (getField buf Broadcast).bind fun bc =>
      (getField buf MasterAddress).bind fun m =>
        (getField buf SlaveAddress).bind fun s =>
          (getField buf Control).bind fun c =>
            (strDataParts buf 0 dataLen).map fun dataStr =>
              (if bc = 0 then ['B'] else ['-']) ++ [' '] ++
                formatHex 3 m ++ [' '] ++ formatHex 3 s ++ [' '] ++
                formatHex 1 c ++ [' '] ++ formatDec 2 dataLen ++
                [' ', ':', ' '] ++ dataStr

/-! ## Line signal encoder (`IEBusBitBang.py`) -/

/-- `bitRate = 1000000`. -/
def bitRate : ℚ := 1000000

/-- `T_Bit_uS = 256 / 6.291456` — the Python float expression modelled as
the exact rational it denotes (all rounded results below are far from any
half-integer, so the double-precision rounding error, smaller than 1e-12,
cannot change them). -/
def T_Bit_uS : ℚ := 256 / 6.291456

/-- `uS_to_bits(time) = round(1e-6 * bitRate * time)`. -/
def uS_to_bits (time : ℚ) : ℤ :=
  round ((1e-6 : ℚ) * bitRate * time)

def T_StartBit : ℤ := uS_to_bits 170

def T_Bit : ℤ := uS_to_bits T_Bit_uS

def T_Bit_1 : ℤ := uS_to_bits (T_Bit_uS / 2)

def T_Bit_0 : ℤ := uS_to_bits (4 * T_Bit_uS / 5)

def T_TxWait : ℤ := uS_to_bits 88

/-- `lineState = { False: '1', True: '0' }` (True = line pulled low). -/
def lineState (state : Bool) : Char :=
  if state then '0' else '1'

/-- `make_output_segment(state, timeBits)`: `timeBits` copies of the line
state character (Python string repetition yields `''` for a non-positive
count, hence `Int.toNat`). -/
def make_output_segment (state : Bool) (timeBits : ℤ) : List Char :=
  List.replicate timeBits.toNat (lineState state)

/-- `make_output_from_bit(bitVal)` (lines 53-70). -/
def make_output_from_bit (bitVal : Bool) : List Char :=
  if bitVal = false then
    make_output_segment true T_Bit_0 ++ make_output_segment false (T_Bit - T_Bit_0)
  else
    make_output_segment true T_Bit_1 ++ make_output_segment false (T_Bit - T_Bit_1)

/-- `make_output_from_iebus_bits(messageBits)` (lines 73-92): start bit,
sync period, one segment pair per message bit, post-transmission wait. -/
def make_output_from_iebus_bits (messageBits : List Bool) : List Char :=
  make_output_segment true T_StartBit ++ make_output_segment false T_Bit_1 ++
    (messageBits.map make_output_from_bit).flatten ++ make_output_segment false T_TxWait

/-- `'{:08b}'.format(b)` as booleans, most-significant bit first. -/
def byteToBits (b : Nat) : List Bool :=
  [b.testBit 7, b.testBit 6, b.testBit 5, b.testBit 4,
    b.testBit 3, b.testBit 2, b.testBit 1, b.testBit 0]

/-- `bytes_to_bits(messageBytes)` (lines 112-124). -/
def bytes_to_bits (messageBytes : List Nat) : List Bool :=
  (messageBytes.map byteToBits).flatten

/-- `int(byteStr, 2)` on a string of `'0'`/`'1'` characters. -/
def binVal (cs : List Char) : Nat :=
  cs.foldl (fun a c => 2 * a + (if c = '1' then 1 else 0)) 0

/-- `.ljust(8, '1')`: pad on the right with idle bits to 8 characters. -/
def ljust8 (cs : List Char) : List Char :=
  cs ++ List.replicate (8 - cs.length) '1'

/-- Helper of `bits_to_bytes` with fuel: each step consumes 8 characters
(at least one, when nonempty), so fuel `l.length` suffices. -/
def bits_to_bytesAux : Nat → List Char → List Nat
  | 0, _ => []
  | fuel + 1, l =>
    if l = [] then [] else binVal (ljust8 (l.take 8)) :: bits_to_bytesAux fuel (l.drop 8)

/-- `bits_to_bytes(bitStr)` (lines 127-138): group into 8-character chunks,
right-pad the last chunk with `'1'`, parse each chunk as a binary byte. -/
def bits_to_bytes (bitStr : List Char) : List Nat :=
  bits_to_bytesAux bitStr.length bitStr

/-- Lines 105-107 of `make_output_from_iebus_message`: the logical bit
sequence — the message bytes expanded to bits, truncated to the declared
message bit length. -/
def logicalBits (buf : Buffer) : Option (List Bool) :=
  (getAsBytes buf).bind fun msgBytes =>
    (getLengthInBits buf).map fun lb => (bytes_to_bits msgBytes).take lb

/-- `make_output_from_iebus_message(message)` (lines 95-109). -/
def make_output_from_iebus_message (buf : Buffer) : Option (List Char) :=
  (logicalBits buf).map make_output_from_iebus_bits

/-! ## Transmission timeline composer (`BitBangUtility.py`, lines 130-149) -/

/-- Python slice assignment `l[a:b] = repl` (for `a ≤ b`): replace the
slice, clamping both indices to the list length; a replacement longer than
the clamped slice grows the list. -/
def sliceAssign {α : Type} (l : List α) (a b : Nat) (repl : List α) : List α :=
  l.take a ++ repl ++ l.drop (max a b)

/-- The fixed-interval composition loop (`args.regular != 0` branch):
initialise `regularInterval * len(messages)` idle samples, then overwrite
the i-th encoded message at offset `i * regularInterval`. -/
def composeRegular (messageSignals : List (List Char)) (regularInterval : Nat) : List Char :=
  messageSignals.enum.foldl
    (fun signal p =>
      sliceAssign signal (p.1 * regularInterval) (p.1 * regularInterval + p.2.length) p.2)
    (List.replicate (regularInterval * messageSignals.length) '1')

/-- The value of `writeData` when every write is in bounds (proved below):
the same chain of raw field writes without the `Option` plumbing. -/
def writeDataRaw (buf : Buffer) (i : Nat) : List Nat → Buffer
  | [] => buf
  | v :: rest =>
    writeDataRaw
      (setRaw (setRaw (setRaw buf (Data i) v) (Data_P i) (calculateParity v).toNat)
        (Data_A i) DefaultAckVal)
      (i + 1) rest

/-- The value of `bcGroup` when the write is in bounds (proved below). -/
def bcGroupRaw (broadcast : Nat) (buf : Buffer) : Buffer :=
  if broadcast ≠ 0 then setRaw buf Broadcast broadcast else buf

/-- The value of `masterGroup` when every write is in bounds. -/
def masterGroupRaw (master_address : Nat) (buf : Buffer) : Buffer :=
  if master_address ≠ 0 then
    setRaw (setRaw buf MasterAddress master_address) MasterAddress_P
      (calculateParity master_address).toNat
  else buf

/-- The value of `slaveGroup` when every write is in bounds. -/
def slaveGroupRaw (slave_address : Nat) (buf : Buffer) : Buffer :=
  if slave_address ≠ 0 then
    setRaw (setRaw (setRaw buf SlaveAddress slave_address) SlaveAddress_P
        (calculateParity slave_address).toNat)
      SlaveAddress_A DefaultAckVal
  else buf

/-- The value of `controlGroup` when every write is in bounds. -/
def controlGroupRaw (control : Nat) (buf : Buffer) : Buffer :=
  if control ≠ 0 then
    setRaw (setRaw (setRaw buf Control control) Control_P
        (calculateParity control).toNat)
      Control_A DefaultAckVal
  else buf

/-- The value of `dataGroup` when every write is in bounds. -/
def dataGroupRaw (data : List Nat) (buf : Buffer) : Buffer :=
  if data ≠ [] then
    writeDataRaw
      (setRaw (setRaw (setRaw buf DataLength data.length) DataLength_P
          (calculateParity data.length).toNat)
        DataLength_A DefaultAckVal)
      0 data
  else buf

/-- The value of `initFields` when every write is in bounds (proved below). -/
def initRaw (broadcast master_address slave_address control : Nat)
    (data : List Nat) : Buffer :=
  dataGroupRaw data
    (controlGroupRaw control
      (slaveGroupRaw slave_address
        (masterGroupRaw master_address
          (bcGroupRaw broadcast (List.replicate (MaxMessageLenBytes + 4) 0)))))

/-- The character rendering of one line-state sample (idle/`True` = `'1'`). -/
def sampleChar (b : Bool) : Char :=
  if b then '1' else '0'

/-- A character that belongs to a sample string. -/
def IsSample (c : Char) : Prop := c = '0' ∨ c = '1'

instance (c : Char) : Decidable (IsSample c) :=
  inferInstanceAs (Decidable (_ ∨ _))

/-! ## Parity lemmas -/

theorem parityGo_eq (fuel : Nat) : ∀ v p, v ≤ fuel →
    parityGo p v fuel = p.xor (decide (Odd ((Nat.digits 2 v).count 1))) := by
  induction fuel with
  | zero =>
    intro v p hv
    interval_cases v
    simp [parityGo]
  | succ fuel ih =>
    intro v p hv
    by_cases h0 : v = 0
    · subst h0
      simp [parityGo]
    · rw [parityGo, if_neg h0, ih _ _ (by omega)]
      rw [Nat.digits_def' (by norm_num : (1:ℕ) < 2) (Nat.pos_of_ne_zero h0)]
      rw [List.count_cons]
      rcases Nat.mod_two_eq_zero_or_one v with h2 | h2 <;> rw [h2]
      · simp
      · have key : ∀ (p q : Bool), ((!p).xor q) = p.xor (!q) := by decide
        norm_num
        have hqe : decide (Even (List.count 1 (Nat.digits 2 (v / 2)))) =
            !decide (Odd (List.count 1 (Nat.digits 2 (v / 2)))) := by
          rcases Nat.even_or_odd (List.count 1 (Nat.digits 2 (v / 2))) with he | ho
          · simp [he, (Nat.not_odd_iff_even).mpr he]
          · simp [ho, (Nat.not_even_iff_odd).mpr ho]
        simp only [Nat.odd_add_one, Nat.not_odd_iff_even, hqe]
        generalize decide (Odd (List.count 1 (Nat.digits 2 (v / 2)))) = q
        revert p q
        decide

theorem calculateParity_iff (v : Nat) :
    calculateParity v = true ↔ Odd ((Nat.digits 2 v).count 1) := by
  rw [calculateParity, parityGo_eq v v false le_rfl]
  simp

/-! ## Word-level bit lemmas -/

/-- Python's `x & ~m` on a non-negative `x` (clear the bits of `m`) equals
the modelled `x - (x &&& m)`. -/
theorem sub_and_eq_ldiff (x : Nat) : ∀ m : Nat, x - (x &&& m) = Nat.ldiff x m := by
  induction x using Nat.binaryRec with
  | z => simp [Nat.ldiff, Nat.bitwise_zero_left]
  | f b n ih =>
    intro m
    obtain ⟨c, k, rfl⟩ : ∃ c k, m = Nat.bit c k := ⟨m.bodd, m.div2, (Nat.bit_decomp m).symm⟩
    rw [Nat.land_bit, Nat.ldiff_bit, ← ih k]
    have hle : n &&& k ≤ n := Nat.and_le_left
    simp only [Nat.bit_val]
    cases b <;> cases c <;> simp <;> omega

/-- Bits of the word `setField` writes back: the field's window `[s, s+w)`
carries the bits of `v`, everything else is the old word's bit. -/
theorem testBit_insert (old v w s t : Nat) (hv : v < 2 ^ w) :
    ((old - (old &&& (((1 <<< w) - 1) <<< s))) ||| (v <<< s)).testBit t =
      if s ≤ t ∧ t < s + w then v.testBit (t - s) else old.testBit t := by
  rw [sub_and_eq_ldiff]
  rw [Nat.testBit_or, Nat.testBit_ldiff, Nat.testBit_shiftLeft, Nat.testBit_shiftLeft]
  have hmask : (1 <<< w) - 1 = 2 ^ w - 1 := by rw [Nat.shiftLeft_eq]; ring_nf
  rw [hmask, Nat.testBit_two_pow_sub_one]
  by_cases h1 : s ≤ t
  · by_cases h2 : t < s + w
    · simp [h1, h2, show t - s < w by omega]
    · have : v.testBit (t - s) = false :=
        Nat.testBit_eq_false_of_lt
          (lt_of_lt_of_le hv (Nat.pow_le_pow_right (by norm_num) (by omega)))
      simp [h1, h2, this, show ¬(t - s < w) by omega]
  · simp [h1, show ¬(s ≤ t ∧ t < s + w) by omega]

/-- `setWord` in terms of `testBit_insert`. -/
theorem testBit_setWord (f : IEBusMessageField) (v old t : Nat)
    (hv : v < 2 ^ f.LengthBits) :
    (setWord f v old).testBit t =
      if 32 - f.LengthBits - f.BitOffset % 8 ≤ t ∧
          t < (32 - f.LengthBits - f.BitOffset % 8) + f.LengthBits then
        v.testBit (t - (32 - f.LengthBits - f.BitOffset % 8))
      else old.testBit t :=
  testBit_insert old v f.LengthBits (32 - f.LengthBits - f.BitOffset % 8) t hv

theorem setWord_lt (f : IEBusMessageField) (v old : Nat)
    (hold : old < 2 ^ 32) (hv : v < 2 ^ f.LengthBits)
    (hw : f.LengthBits + f.BitOffset % 8 ≤ 32) :
    setWord f v old < 2 ^ 32 := by
  apply Nat.or_lt_two_pow
  · exact lt_of_le_of_lt (Nat.sub_le _ _) hold
  · rw [Nat.shiftLeft_eq]
    calc v * 2 ^ (32 - f.LengthBits - f.BitOffset % 8)
        < 2 ^ f.LengthBits * 2 ^ (32 - f.LengthBits - f.BitOffset % 8) :=
          (Nat.mul_lt_mul_right (Nat.pow_pos (by norm_num))).mpr hv
      _ = 2 ^ (f.LengthBits + (32 - f.LengthBits - f.BitOffset % 8)) := by
          rw [pow_add]
      _ ≤ 2 ^ 32 := Nat.pow_le_pow_right (by norm_num) (by omega)

/-! ## Buffer-level lemmas -/

theorem getD_lt_256 {buf : Buffer} (hB : BytesOk buf) (p : Nat) : buf.getD p 0 < 256 := by
  by_cases hp : p < buf.length
  · rw [List.getD_eq_getElem buf 0 hp]
    exact hB _ (List.getElem_mem hp)
  · rw [List.getD_eq_getElem?_getD, List.getElem?_eq_none (by omega)]
    norm_num

theorem unpack_word_lt {buf : Buffer} (hB : BytesOk buf) (start : Nat) :
    unpack_word buf start < 2 ^ 32 := by
  have h : ∀ p k, k ≤ 24 → (buf.getD p 0) <<< k < 2 ^ 32 := by
    intro p k hk
    rw [Nat.shiftLeft_eq]
    calc buf.getD p 0 * 2 ^ k < 256 * 2 ^ k :=
          (Nat.mul_lt_mul_right (Nat.pow_pos (by norm_num))).mpr (getD_lt_256 hB p)
      _ = 2 ^ (8 + k) := by rw [pow_add]; norm_num
      _ ≤ 2 ^ 32 := Nat.pow_le_pow_right (by norm_num) (by omega)
  refine Nat.or_lt_two_pow (Nat.or_lt_two_pow (Nat.or_lt_two_pow ?_ ?_) ?_) ?_
  · exact h start 24 le_rfl
  · exact h (start + 1) 16 (by norm_num)
  · exact h (start + 2) 8 (by norm_num)
  · simpa using h (start + 3) 0 (by norm_num)

/-- Bit `t` of the big-endian 32-bit window at `start` is the message bit
`8 * start + (31 - t)`. -/
theorem testBit_unpack_word {buf : Buffer} (hB : BytesOk buf) (start t : Nat)
    (ht : t < 32) :
    (unpack_word buf start).testBit t = bufTestBit buf (8 * start + (31 - t)) := by
  have hbyte : ∀ p u, 8 ≤ u → (buf.getD p 0).testBit u = false := by
    intro p u hu
    refine Nat.testBit_eq_false_of_lt (lt_of_lt_of_le (getD_lt_256 hB p) ?_)
    calc (256 : Nat) = 2 ^ 8 := by norm_num
      _ ≤ 2 ^ u := Nat.pow_le_pow_right (by norm_num) hu
  rw [unpack_word]
  simp only [Nat.testBit_or, Nat.testBit_shiftLeft]
  rcases (by omega : 24 ≤ t ∧ t < 32 ∨ 16 ≤ t ∧ t < 24 ∨ 8 ≤ t ∧ t < 16 ∨ t < 8) with
    h | h | h | h
  · have e1 : (buf.getD (start + 1) 0).testBit (t - 16) = false := hbyte _ _ (by omega)
    have e2 : (buf.getD (start + 2) 0).testBit (t - 8) = false := hbyte _ _ (by omega)
    have e3 : (buf.getD (start + 3) 0).testBit t = false := hbyte _ _ (by omega)
    rw [bufTestBit, show (8 * start + (31 - t)) / 8 = start by omega,
      show 7 - (8 * start + (31 - t)) % 8 = t - 24 by omega]
    simp only [List.getD_eq_getElem?_getD] at e1 e2 e3 ⊢
    rw [e1, e2, e3]
    simp [show 24 ≤ t from h.1, show 16 ≤ t by omega, show 8 ≤ t by omega]
  · have e2 : (buf.getD (start + 2) 0).testBit (t - 8) = false := hbyte _ _ (by omega)
    have e3 : (buf.getD (start + 3) 0).testBit t = false := hbyte _ _ (by omega)
    rw [bufTestBit, show (8 * start + (31 - t)) / 8 = start + 1 by omega,
      show 7 - (8 * start + (31 - t)) % 8 = t - 16 by omega]
    simp only [List.getD_eq_getElem?_getD] at e2 e3 ⊢
    rw [e2, e3]
    simp [show ¬(24 ≤ t) by omega, show 16 ≤ t from h.1, show 8 ≤ t by omega]
  · have e3 : (buf.getD (start + 3) 0).testBit t = false := hbyte _ _ (by omega)
    rw [bufTestBit, show (8 * start + (31 - t)) / 8 = start + 2 by omega,
      show 7 - (8 * start + (31 - t)) % 8 = t - 8 by omega]
    simp only [List.getD_eq_getElem?_getD] at e3 ⊢
    rw [e3]
    simp [show ¬(24 ≤ t) by omega, show ¬(16 ≤ t) by omega, show 8 ≤ t from h.1]
  · rw [bufTestBit, show (8 * start + (31 - t)) / 8 = start + 3 by omega,
      show 7 - (8 * start + (31 - t)) % 8 = t by omega]
    simp [show ¬(24 ≤ t) by omega, show ¬(16 ≤ t) by omega, show ¬(8 ≤ t) by omega]

theorem length_pack_word (buf : Buffer) (start val : Nat) :
    (pack_word buf start val).length = buf.length := by
  simp [pack_word]

theorem BytesOk_pack_word {buf : Buffer} (hB : BytesOk buf) (start val : Nat) :
    BytesOk (pack_word buf start val) := by
  have hand : ∀ x : Nat, x &&& 255 < 256 :=
    fun x => lt_of_le_of_lt Nat.and_le_right (by norm_num)
  intro b hb
  rcases List.mem_or_eq_of_mem_set hb with hb | rfl
  · rcases List.mem_or_eq_of_mem_set hb with hb | rfl
    · rcases List.mem_or_eq_of_mem_set hb with hb | rfl
      · rcases List.mem_or_eq_of_mem_set hb with hb | rfl
        · exact hB _ hb
        · exact hand _
      · exact hand _
    · exact hand _
  · exact hand _

/-- The bytes of `pack_word buf start val` at the four written positions
and elsewhere. -/
theorem getD_pack_word {buf : Buffer} (start val : Nat)
    (h : start + 4 ≤ buf.length) (p : Nat) :
    (pack_word buf start val).getD p 0 =
      if p = start then val >>> 24 &&& 255
      else if p = start + 1 then val >>> 16 &&& 255
      else if p = start + 2 then val >>> 8 &&& 255
      else if p = start + 3 then val &&& 255
      else buf.getD p 0 := by
  have hlen : ∀ (l : Buffer) (i : Nat) (a : Nat), (l.set i a).length = l.length :=
    fun l i a => List.length_set l i a
  simp only [pack_word, List.getD_eq_getElem?_getD]
  by_cases h3 : p = start + 3
  · subst h3
    rw [List.getElem?_set_self (by simp only [List.length_set]; omega)]
    simp [show ¬(start + 3 = start) by omega, show ¬(start + 3 = start + 1) by omega,
      show ¬(start + 3 = start + 2) by omega]
  · rw [List.getElem?_set_ne (by omega)]
    by_cases h2 : p = start + 2
    · subst h2
      rw [List.getElem?_set_self (by simp only [List.length_set]; omega)]
      simp [show ¬(start + 2 = start) by omega, show ¬(start + 2 = start + 1) by omega]
    · rw [List.getElem?_set_ne (by omega)]
      by_cases h1 : p = start + 1
      · subst h1
        rw [List.getElem?_set_self (by simp only [List.length_set]; omega)]
        simp [show ¬(start + 1 = start) by omega]
      · rw [List.getElem?_set_ne (by omega)]
        by_cases h0 : p = start
        · subst h0
          rw [List.getElem?_set_self (by omega)]
          simp
        · rw [List.getElem?_set_ne (by omega)]
          simp [h0, h1, h2, h3]

/-! ## Field access lemmas -/

theorem length_setRaw (buf : Buffer) (f : IEBusMessageField) (v : Nat) :
    (setRaw buf f v).length = buf.length :=
  length_pack_word _ _ _

theorem BytesOk_setRaw {buf : Buffer} (hB : BytesOk buf) (f : IEBusMessageField)
    (v : Nat) : BytesOk (setRaw buf f v) :=
  BytesOk_pack_word hB _ _

theorem setField_eq_setRaw {buf : Buffer} {f : IEBusMessageField} {v : Nat}
    (hB : BytesOk buf) (hA : Admissible buf f) (hv : v < 2 ^ f.LengthBits) :
    setField buf f v = some (setRaw buf f v) := by
  obtain ⟨hlen, hw⟩ := hA
  rw [setField, unpack_from, if_pos hlen, Option.some_bind, pack_into,
    if_pos ⟨hlen, setWord_lt f v _ (unpack_word_lt hB _) hv hw⟩, setRaw]

theorem getField_eq_getRaw {buf : Buffer} {f : IEBusMessageField}
    (hlen : f.BitOffset / 8 + 4 ≤ buf.length) :
    getField buf f = some (getRaw buf f) := by
  rw [getField, unpack_from, if_pos hlen]
  rfl

theorem one_shiftLeft_sub_one (w : Nat) : (1 <<< w) - 1 = 2 ^ w - 1 := by
  rw [Nat.shiftLeft_eq]
  ring_nf

theorem getRaw_lt (buf : Buffer) (f : IEBusMessageField) :
    getRaw buf f < 2 ^ f.LengthBits := by
  rw [getRaw, one_shiftLeft_sub_one, Nat.and_pow_two_sub_one_eq_mod]
  exact Nat.mod_lt _ (Nat.pow_pos (by norm_num))

/-- A read value, bit by bit: bit `i` of the field value is message bit
`BitOffset + (LengthBits - 1 - i)` (fields are stored most-significant bit
first). -/
theorem getRaw_testBit {buf : Buffer} (hB : BytesOk buf) {f : IEBusMessageField}
    (hw : f.LengthBits + f.BitOffset % 8 ≤ 32) (i : Nat) :
    (getRaw buf f).testBit i =
      (decide (i < f.LengthBits) &&
        bufTestBit buf (f.BitOffset + (f.LengthBits - 1 - i))) := by
  rw [getRaw, one_shiftLeft_sub_one, Nat.testBit_and, Nat.testBit_shiftRight,
    Nat.testBit_two_pow_sub_one]
  by_cases hi : i < f.LengthBits
  · rw [testBit_unpack_word hB _ _ (by omega)]
    have harith : 8 * (f.BitOffset / 8) +
        (31 - (32 - f.LengthBits - f.BitOffset % 8 + i)) =
        f.BitOffset + (f.LengthBits - 1 - i) := by omega
    rw [harith]
    simp [hi, Bool.and_comm]
  · simp [hi]

/-- `(x >>> n) &&& 255` extracts one byte of `x`. -/
theorem testBit_extract_byte (x n b : Nat) (hb : b < 8) :
    ((x >>> n) &&& 255).testBit b = x.testBit (n + b) := by
  rw [Nat.testBit_and, Nat.testBit_shiftRight,
    show (255 : Nat) = 2 ^ 8 - 1 by norm_num, Nat.testBit_two_pow_sub_one]
  simp [hb]

/-- The central write lemma: `setRaw` replaces exactly the field's window
with the low `LengthBits` bits of `v` (most-significant first) and leaves
every other message bit unchanged. -/
theorem bufTestBit_setRaw {buf : Buffer} {f : IEBusMessageField} {v : Nat}
    (hB : BytesOk buf) (hA : Admissible buf f) (hv : v < 2 ^ f.LengthBits)
    (j : Nat) :
    bufTestBit (setRaw buf f v) j =
      if f.BitOffset ≤ j ∧ j < f.BitOffset + f.LengthBits then
        v.testBit (f.BitOffset + f.LengthBits - 1 - j)
      else bufTestBit buf j := by
  obtain ⟨hlen, hw⟩ := hA
  rw [setRaw, bufTestBit, getD_pack_word _ _ hlen]
  have hcase : ∀ (k : Nat), k < 4 → j / 8 = f.BitOffset / 8 + k →
      ((setWord f v (unpack_word buf (f.BitOffset / 8)) >>> (8 * (3 - k))) &&&
          255).testBit (7 - j % 8) =
        if f.BitOffset ≤ j ∧ j < f.BitOffset + f.LengthBits then
          v.testBit (f.BitOffset + f.LengthBits - 1 - j)
        else bufTestBit buf j := by
    intro k hk hq
    rw [testBit_extract_byte _ _ _ (by omega),
      testBit_setWord f v _ _ hv]
    by_cases hin : f.BitOffset ≤ j ∧ j < f.BitOffset + f.LengthBits
    · rw [if_pos (by omega), if_pos hin]
      congr 1
      omega
    · rw [if_neg (by omega), if_neg hin]
      rw [testBit_unpack_word hB _ _ (by omega)]
      congr 1
      omega
  by_cases h0 : j / 8 = f.BitOffset / 8
  · rw [if_pos h0]
    exact (by simpa using hcase 0 (by norm_num) (by omega))
  · rw [if_neg h0]
    by_cases h1 : j / 8 = f.BitOffset / 8 + 1
    · rw [if_pos h1]
      exact (by simpa using hcase 1 (by norm_num) h1)
    · rw [if_neg h1]
      by_cases h2 : j / 8 = f.BitOffset / 8 + 2
      · rw [if_pos h2]
        exact (by simpa using hcase 2 (by norm_num) h2)
      · rw [if_neg h2]
        by_cases h3 : j / 8 = f.BitOffset / 8 + 3
        · rw [if_pos h3]
          exact (by simpa using hcase 3 (by norm_num) h3)
        · rw [if_neg h3, if_neg (by omega)]
          rfl

/-- Round trip at the raw level: reading back a just-written field value. -/
theorem getRaw_setRaw_self {buf : Buffer} {f : IEBusMessageField} {v : Nat}
    (hB : BytesOk buf) (hA : Admissible buf f) (hv : v < 2 ^ f.LengthBits) :
    getRaw (setRaw buf f v) f = v := by
  apply Nat.eq_of_testBit_eq
  intro i
  rw [getRaw_testBit (BytesOk_setRaw hB f v) hA.2]
  by_cases hi : i < f.LengthBits
  · rw [bufTestBit_setRaw hB hA hv, if_pos (by omega)]
    have : f.BitOffset + f.LengthBits - 1 - (f.BitOffset + (f.LengthBits - 1 - i)) = i := by
      omega
    rw [this]
    simp [hi]
  · have hvi : v.testBit i = false :=
      Nat.testBit_eq_false_of_lt
        (lt_of_lt_of_le hv (Nat.pow_le_pow_right (by norm_num) (by omega)))
    simp [hi, hvi]

/-- A write to a disjoint field does not change a field's value. -/
theorem getRaw_setRaw_disjoint {buf : Buffer} {f g : IEBusMessageField} {u : Nat}
    (hB : BytesOk buf) (hAg : Admissible buf g)
    (hwf : f.LengthBits + f.BitOffset % 8 ≤ 32) (hu : u < 2 ^ g.LengthBits)
    (hdisj : f.BitOffset + f.LengthBits ≤ g.BitOffset ∨
      g.BitOffset + g.LengthBits ≤ f.BitOffset) :
    getRaw (setRaw buf g u) f = getRaw buf f := by
  apply Nat.eq_of_testBit_eq
  intro i
  rw [getRaw_testBit (BytesOk_setRaw hB g u) hwf, getRaw_testBit hB hwf]
  by_cases hi : i < f.LengthBits
  · rw [bufTestBit_setRaw hB hAg hu, if_neg (by omega)]
  · simp [hi]

/-! ## Timing constant evaluation -/

theorem T_StartBit_eq : T_StartBit = 170 := by
  norm_num [T_StartBit, uS_to_bits, bitRate, round_eq]

theorem T_Bit_eq : T_Bit = 41 := by
  norm_num [T_Bit, uS_to_bits, bitRate, T_Bit_uS, round_eq]

theorem T_Bit_1_eq : T_Bit_1 = 20 := by
  norm_num [T_Bit_1, uS_to_bits, bitRate, T_Bit_uS, round_eq]

theorem T_Bit_0_eq : T_Bit_0 = 33 := by
  norm_num [T_Bit_0, uS_to_bits, bitRate, T_Bit_uS, round_eq]

theorem T_TxWait_eq : T_TxWait = 88 := by
  norm_num [T_TxWait, uS_to_bits, bitRate, round_eq]

/-! ## Line signal lengths -/

theorem make_output_segment_length (state : Bool) (t : ℤ) :
    (make_output_segment state t).length = t.toNat := by
  simp [make_output_segment]

theorem make_output_from_bit_length (b : Bool) :
    (make_output_from_bit b).length = 41 := by
  cases b <;>
    simp [make_output_from_bit, make_output_segment_length, T_Bit_eq, T_Bit_0_eq,
      T_Bit_1_eq]

theorem flatten_map_output_length (bits : List Bool) :
    ((bits.map make_output_from_bit).flatten).length = 41 * bits.length := by
  induction bits with
  | nil => simp
  | cons b rest ih =>
    simp only [List.map_cons, List.flatten_cons, List.length_append, ih,
      make_output_from_bit_length, List.length_cons]
    ring

theorem make_output_from_iebus_bits_length (bits : List Bool) :
    (make_output_from_iebus_bits bits).length = 170 + 20 + 41 * bits.length + 88 := by
  rw [make_output_from_iebus_bits]
  simp only [List.length_append, make_output_segment_length,
    flatten_map_output_length, T_StartBit_eq, T_Bit_1_eq, T_TxWait_eq]
  rw [show Int.toNat 170 = 170 from rfl, show Int.toNat 20 = 20 from rfl,
    show Int.toNat 88 = 88 from rfl]

/-! ## Claim theorems -/

/-- C1: for every field width `w ∈ {1, 4, 8, 12}`, every bit offset whose
4-byte window fits the guarded buffer, and every value `v < 2 ^ w`, writing
`v` with `setField` and reading the same field back with `getField`
returns exactly `v`. -/
theorem C1_field_roundtrip (buf : Buffer) (off w v : Nat) (hB : BytesOk buf)
    (hoff : off / 8 + 4 ≤ buf.length) (hw : w = 1 ∨ w = 4 ∨ w = 8 ∨ w = 12)
    (hv : v < 2 ^ w) :
    (setField buf ⟨off, w⟩ v).bind (fun b => getField b ⟨off, w⟩) = some v := by
  have hA : Admissible buf ⟨off, w⟩ :=
    ⟨hoff, by rcases hw with rfl | rfl | rfl | rfl <;> simp only [] <;> omega⟩
  rw [setField_eq_setRaw hB hA hv, Option.some_bind,
    getField_eq_getRaw (by rw [length_setRaw]; exact hoff),
    getRaw_setRaw_self hB hA hv]

theorem C1_field_roundtrip_witness :
    (setField (List.replicate 68 0) ⟨14, 12⟩ 0x440).bind
      (fun b => getField b ⟨14, 12⟩) = some 0x440 :=
  C1_field_roundtrip (List.replicate 68 0) 14 12 0x440 (by decide) (by decide)
    (by decide) (by decide)

/-- C4: `calculateParity v` is true exactly when the population count of
`v` (number of ones among its binary digits) is odd; in particular
`parity 0x0B = 1`, `parity 0x00 = 0` and `parity 0xFF = 0`. -/
theorem C4_parity_odd_popcount :
    (∀ v : Nat, calculateParity v = true ↔ Odd ((Nat.digits 2 v).count 1)) ∧
      calculateParity 0x0B = true ∧ calculateParity 0x00 = false ∧
      calculateParity 0xFF = false :=
  ⟨calculateParity_iff, by decide, by decide, by decide⟩

/-- C9: at the reference 1 MHz rate the timing constants evaluate to
`T_StartBit = 170`, `T_Bit = 41`, `T_Bit_1 = 20`, `T_Bit_0 = 33` and
`T_TxWait = 88` sample units. -/
theorem C9_timing_constants :
    T_StartBit = 170 ∧ T_Bit = 41 ∧ T_Bit_1 = 20 ∧ T_Bit_0 = 33 ∧
      T_TxWait = 88 :=
  ⟨T_StartBit_eq, T_Bit_eq, T_Bit_1_eq, T_Bit_0_eq, T_TxWait_eq⟩

/-- C10: for every field and every in-range value `v < 2 ^ LengthBits`,
`setField` succeeds on an admissible buffer and changes only the
`LengthBits` message bits starting at `BitOffset`, leaving every other bit
unchanged; moreover the precondition is essential — writing the over-wide
value 256 into the 8-bit field `Data 0` of an all-zero buffer flips bit 43,
which lies outside that field's window. -/
theorem C10_setField_frame :
    (∀ (buf : Buffer) (f : IEBusMessageField) (v : Nat), BytesOk buf →
      Admissible buf f → v < 2 ^ f.LengthBits →
      setField buf f v = some (setRaw buf f v) ∧
        ∀ j, j < f.BitOffset ∨ f.BitOffset + f.LengthBits ≤ j →
          bufTestBit (setRaw buf f v) j = bufTestBit buf j) ∧
    (setField (List.replicate 68 0) (Data 0) 256).map
      (fun out => bufTestBit out 43) = some true ∧
    bufTestBit (List.replicate 68 0) 43 = false := by
  refine ⟨fun buf f v hB hA hv => ⟨setField_eq_setRaw hB hA hv, fun j hj => ?_⟩, by decide, by decide⟩
  rw [bufTestBit_setRaw hB hA hv, if_neg (by omega)]

theorem C10_setField_frame_witness :
    bufTestBit (setRaw (List.replicate 68 0) MasterAddress 5) 0 =
      bufTestBit (List.replicate 68 0) 0 :=
  (C10_setField_frame.1 (List.replicate 68 0) MasterAddress 5 (by decide)
      (by decide) (by decide)).2 0 (Or.inl (by decide))

/-- C2: every data bit contributes exactly `T_Bit = 41` samples regardless
of its value; the line signal for an `n`-bit sequence has length exactly
`170 + 20 + 41 * n + 88`; and the signal of a message whose logical bit
sequence has `n` bits has that same length. -/
theorem C2_waveform_length :
    (∀ b : Bool, (make_output_from_bit b).length = T_Bit.toNat) ∧
    (∀ bits : List Bool,
      (make_output_from_iebus_bits bits).length = 170 + 20 + 41 * bits.length + 88) ∧
    (∀ (buf : Buffer) (bits : List Bool) (out : List Char),
      logicalBits buf = some bits → make_output_from_iebus_message buf = some out →
      out.length = 170 + 20 + 41 * bits.length + 88) := by
  refine ⟨fun b => by rw [make_output_from_bit_length, T_Bit_eq]; rfl,
    make_output_from_iebus_bits_length, fun buf bits out hlb hout => ?_⟩
  rw [make_output_from_iebus_message, hlb, Option.map_some'] at hout
  cases hout
  exact make_output_from_iebus_bits_length bits

theorem C2_waveform_length_witness :
    logicalBits (List.replicate 68 0) = some (List.replicate 44 false) ∧
      (make_output_from_iebus_bits (List.replicate 44 false)).length =
        170 + 20 + 41 * (List.replicate 44 false).length + 88 := by
  have h1 : logicalBits (List.replicate 68 0) = some (List.replicate 44 false) := by
    decide
  have h2 : make_output_from_iebus_message (List.replicate 68 0) =
      some (make_output_from_iebus_bits (List.replicate 44 false)) := by
    rw [make_output_from_iebus_message, h1, Option.map_some']
  exact ⟨h1,
    C2_waveform_length.2.2 (List.replicate 68 0) (List.replicate 44 false)
      (make_output_from_iebus_bits (List.replicate 44 false)) h1 h2⟩

/-- C3: the token string `"- 190 440 f 5 00 25 74 9C 04"` constructs a
UNICAST message (broadcast bit 1) with master address `0x190`, slave
address `0x440`, control fixed at `0xF`, data length 7 and payload
`[0x0F, 0x05, 0x00, 0x25, 0x74, 0x9C, 0x04]` (every token from the fourth
onward parsed as a hex data byte); its display string reproduces the
addresses, the payload and the length 7; and control is `0xF` independent
of the fourth token. -/
theorem C3_token_string :
    ((fromString ("- 190 440 f 5 00 25 74 9C 04".toList)).bind
        fun b => getField b Broadcast) = some 1 ∧
    ((fromString ("- 190 440 f 5 00 25 74 9C 04".toList)).bind
        fun b => getField b MasterAddress) = some 0x190 ∧
    ((fromString ("- 190 440 f 5 00 25 74 9C 04".toList)).bind
        fun b => getField b SlaveAddress) = some 0x440 ∧
    ((fromString ("- 190 440 f 5 00 25 74 9C 04".toList)).bind
        fun b => getField b Control) = some 0xF ∧
    ((fromString ("- 190 440 f 5 00 25 74 9C 04".toList)).bind
        fun b => getField b DataLength) = some 7 ∧
    ((fromString ("- 190 440 f 5 00 25 74 9C 04".toList)).bind getData) =
      some [0x0F, 0x05, 0x00, 0x25, 0x74, 0x9C, 0x04] ∧
    ((fromString ("- 190 440 f 5 00 25 74 9C 04".toList)).bind msgToString) =
      some ("- 190 440 f  7 : 0f 05 00 25 74 9c 04 ".toList) ∧
    ((fromString ("- 190 440 0 5 00 25 74 9C 04".toList)).bind
        fun b => getField b Control) = some 0xF := by
  decide

/-! ## Byte packing lemmas -/

theorem bits_to_bytesAux_congr :
    ∀ (f1 f2 : Nat) (l : List Char), l.length ≤ f1 → l.length ≤ f2 →
      bits_to_bytesAux f1 l = bits_to_bytesAux f2 l := by
  intro f1
  induction f1 with
  | zero =>
    intro f2 l h1 h2
    have : l = [] := by
      cases l
      · rfl
      · simp at h1
    subst this
    cases f2 <;> simp [bits_to_bytesAux]
  | succ f1 ih =>
    intro f2 l h1 h2
    by_cases hl : l = []
    · subst hl
      cases f2 <;> simp [bits_to_bytesAux]
    · cases f2 with
      | zero =>
        have : l = [] := by
          cases l
          · rfl
          · simp at h2
        exact absurd this hl
      | succ f2 =>
        rw [bits_to_bytesAux, bits_to_bytesAux, if_neg hl, if_neg hl]
        congr 1
        refine ih f2 (l.drop 8) ?_ ?_ <;>
          · rw [List.length_drop]
            have : 1 ≤ l.length := by
              cases l
              · exact absurd rfl hl
              · simp
            omega

theorem bits_to_bytes_cons (l : List Char) (h : l ≠ []) :
    bits_to_bytes l = binVal (ljust8 (l.take 8)) :: bits_to_bytes (l.drop 8) := by
  obtain ⟨n, hn⟩ : ∃ n, l.length = n + 1 := by
    cases l
    · exact absurd rfl h
    · exact ⟨_, rfl⟩
  rw [bits_to_bytes, hn, bits_to_bytesAux, if_neg h, bits_to_bytes]
  congr 1
  refine bits_to_bytesAux_congr _ _ _ ?_ le_rfl
  rw [List.length_drop]
  omega

theorem bytes_to_bits_cons (b : Nat) (bs : List Nat) :
    bytes_to_bits (b :: bs) = byteToBits b ++ bytes_to_bits bs := by
  simp [bytes_to_bits]

/-- Parsing a full 8-character chunk of samples and expanding it back gives
the chunk's samples. -/
theorem byteToBits_binVal (cs : List Char) (h8 : cs.length = 8)
    (hs : ∀ c ∈ cs, IsSample c) :
    byteToBits (binVal cs) = cs.map (fun c => decide (c = '1')) := by
  have key : ∀ p1 p2 p3 p4 p5 p6 p7 p8 : Bool,
      byteToBits (binVal [sampleChar p1, sampleChar p2, sampleChar p3, sampleChar p4,
        sampleChar p5, sampleChar p6, sampleChar p7, sampleChar p8]) =
        [p1, p2, p3, p4, p5, p6, p7, p8] := by decide
  have keymap : ∀ p : Bool, decide (sampleChar p = '1') = p := by decide
  rcases cs with _ | ⟨a, _ | ⟨b, _ | ⟨c, _ | ⟨d, _ | ⟨e, _ | ⟨f, _ | ⟨g,
    _ | ⟨h, _ | ⟨i, tl⟩⟩⟩⟩⟩⟩⟩⟩⟩ <;> simp at h8
  have ha : a = sampleChar (decide (a = '1')) := by
    rcases hs a (by simp) with rfl | rfl <;> rfl
  have hb : b = sampleChar (decide (b = '1')) := by
    rcases hs b (by simp) with rfl | rfl <;> rfl
  have hc : c = sampleChar (decide (c = '1')) := by
    rcases hs c (by simp) with rfl | rfl <;> rfl
  have hd : d = sampleChar (decide (d = '1')) := by
    rcases hs d (by simp) with rfl | rfl <;> rfl
  have he : e = sampleChar (decide (e = '1')) := by
    rcases hs e (by simp) with rfl | rfl <;> rfl
  have hf : f = sampleChar (decide (f = '1')) := by
    rcases hs f (by simp) with rfl | rfl <;> rfl
  have hg : g = sampleChar (decide (g = '1')) := by
    rcases hs g (by simp) with rfl | rfl <;> rfl
  have hh : h = sampleChar (decide (h = '1')) := by
    rcases hs h (by simp) with rfl | rfl <;> rfl
  calc byteToBits (binVal [a, b, c, d, e, f, g, h])
      = byteToBits (binVal [sampleChar (decide (a = '1')), sampleChar (decide (b = '1')),
          sampleChar (decide (c = '1')), sampleChar (decide (d = '1')),
          sampleChar (decide (e = '1')), sampleChar (decide (f = '1')),
          sampleChar (decide (g = '1')), sampleChar (decide (h = '1'))]) := by
        rw [← ha, ← hb, ← hc, ← hd, ← he, ← hf, ← hg, ← hh]
    _ = [decide (a = '1'), decide (b = '1'), decide (c = '1'), decide (d = '1'),
          decide (e = '1'), decide (f = '1'), decide (g = '1'), decide (h = '1')] :=
        key _ _ _ _ _ _ _ _
    _ = [a, b, c, d, e, f, g, h].map (fun c => decide (c = '1')) := by simp

/-- The byte-packing round trip: re-expanding the packed bytes yields the
original samples followed by the idle padding of the final partial chunk. -/
theorem bytes_to_bits_bits_to_bytes (s : List Char) (hs : ∀ c ∈ s, IsSample c) :
    bytes_to_bits (bits_to_bytes s) =
      s.map (fun c => decide (c = '1')) ++
        List.replicate ((8 - s.length % 8) % 8) true := by
  generalize hn : s.length = n
  induction n using Nat.strong_induction_on generalizing s with
  | _ n ih =>
    by_cases h0 : s = []
    · subst h0
      simp at hn
      subst hn
      rfl
    · rw [bits_to_bytes_cons s h0, bytes_to_bits_cons]
      by_cases h8 : 8 ≤ s.length
      · have htake : (s.take 8).length = 8 := by
          rw [List.length_take]
          omega
        have hjust : ljust8 (s.take 8) = s.take 8 := by
          rw [ljust8, htake]
          simp
        rw [hjust, byteToBits_binVal _ htake (fun c hc => hs c (List.mem_of_mem_take hc))]
        rw [ih (s.length - 8) (by omega) (s.drop 8)
          (fun c hc => hs c (List.mem_of_mem_drop hc)) (by rw [List.length_drop])]
        rw [← List.append_assoc, ← List.map_append, List.take_append_drop]
        have : (8 - (s.length - 8) % 8) % 8 = (8 - s.length % 8) % 8 := by omega
        rw [this, hn]
      · have htake : s.take 8 = s := List.take_of_length_le (by omega)
        have hdrop : s.drop 8 = [] := List.drop_eq_nil_of_le (by omega)
        have hj8 : (ljust8 s).length = 8 := by
          rw [ljust8, List.length_append, List.length_replicate]
          omega
        have hjs : ∀ c ∈ ljust8 s, IsSample c := by
          intro c hc
          rcases List.mem_append.mp hc with hc | hc
          · exact hs c hc
          · rw [List.eq_of_mem_replicate hc]
            right
            rfl
        rw [htake, hdrop, byteToBits_binVal _ hj8 hjs]
        show (ljust8 s).map _ ++ bytes_to_bits [] = _
        rw [ljust8, List.map_append, List.map_replicate]
        have h1 : 1 ≤ s.length := by
          cases s
          · exact absurd rfl h0
          · simp
        have : (8 - s.length % 8) % 8 = 8 - s.length := by omega
        simp [this, hn, bytes_to_bits]
        omega

/-- C6: for a sample string whose length is a multiple of 8,
`bytes_to_bits (bits_to_bytes s)` reproduces exactly the samples of `s`
(as line states; `sampleChar` renders them back to the characters of `s`);
for any other length, the missing low-order bits of the final byte are
padded with idle `1` bits, so the round trip is `s` followed by
`(8 - len % 8) % 8` idle samples. -/
theorem C6_byte_packing (s : List Char) (hs : ∀ c ∈ s, IsSample c) :
    (s.length % 8 = 0 → (bytes_to_bits (bits_to_bytes s)).map sampleChar = s) ∧
    bytes_to_bits (bits_to_bytes s) =
      s.map (fun c => decide (c = '1')) ++
        List.replicate ((8 - s.length % 8) % 8) true := by
  have h2 := bytes_to_bits_bits_to_bytes s hs
  refine ⟨fun h0 => ?_, h2⟩
  rw [h2, show (8 - s.length % 8) % 8 = 0 by omega]
  simp only [List.replicate_zero, List.append_nil, List.map_map]
  calc s.map (sampleChar ∘ fun c => decide (c = '1'))
      = s.map id := by
        apply List.map_congr_left
        intro c hc
        rcases hs c hc with rfl | rfl <;> rfl
    _ = s := List.map_id s

theorem C6_byte_packing_witness :
    (bytes_to_bits (bits_to_bytes ("01101001".toList))).map sampleChar =
      "01101001".toList ∧
    bytes_to_bits (bits_to_bytes ("0110".toList)) =
      ("0110".toList).map (fun c => decide (c = '1')) ++
        List.replicate ((8 - ("0110".toList).length % 8) % 8) true :=
  ⟨(C6_byte_packing ("01101001".toList) (by decide)).1 (by decide),
    (C6_byte_packing ("0110".toList) (by decide)).2⟩

/-! ## Timeline composition lemmas -/

theorem sliceAssign_length {α : Type} (l : List α) (a : Nat) (repl : List α)
    (hfit : a + repl.length ≤ l.length) :
    (sliceAssign l a (a + repl.length) repl).length = l.length := by
  rw [sliceAssign, Nat.max_eq_right (Nat.le_add_right _ _)]
  simp only [List.length_append, List.length_take, List.length_drop]
  omega

/-- Pointwise view of an in-bounds slice assignment: an overwrite. -/
theorem sliceAssign_getElem? {α : Type} (l : List α) (a : Nat) (repl : List α)
    (hfit : a + repl.length ≤ l.length) (q : Nat) :
    (sliceAssign l a (a + repl.length) repl)[q]? =
      if a ≤ q ∧ q < a + repl.length then repl[q - a]? else l[q]? := by
  rw [sliceAssign, Nat.max_eq_right (Nat.le_add_right _ _)]
  have hta : (l.take a).length = a := by
    rw [List.length_take]
    omega
  have htr : (l.take a ++ repl).length = a + repl.length := by
    rw [List.length_append, hta]
  by_cases h2 : q < a + repl.length
  · rw [List.getElem?_append_left (by omega)]
    by_cases h1 : q < a
    · rw [List.getElem?_append_left (by omega), List.getElem?_take_of_lt h1,
        if_neg (by omega)]
    · rw [List.getElem?_append_right (by omega), hta, if_pos (by omega)]
  · rw [List.getElem?_append_right (by omega), htr, List.getElem?_drop,
      if_neg (by omega)]
    congr 1
    omega

/-- The composition fold: length preservation, preservation of samples
before the next placement offset, and correct placement of every message
when each signal fits within its interval. -/
theorem compose_foldl (R L : Nat) :
    ∀ (sigs : List (List Char)) (j : Nat) (acc : List Char),
      acc.length = L → (∀ s ∈ sigs, s.length ≤ R) → (j + sigs.length) * R ≤ L →
      ((sigs.enumFrom j).foldl
          (fun signal p =>
            sliceAssign signal (p.1 * R) (p.1 * R + p.2.length) p.2) acc).length = L ∧
      (∀ q, q < j * R →
        ((sigs.enumFrom j).foldl
            (fun signal p =>
              sliceAssign signal (p.1 * R) (p.1 * R + p.2.length) p.2) acc)[q]? =
          acc[q]?) ∧
      (∀ i s, sigs[i]? = some s → ∀ t, t < s.length →
        ((sigs.enumFrom j).foldl
            (fun signal p =>
              sliceAssign signal (p.1 * R) (p.1 * R + p.2.length) p.2) acc)[(j + i) * R + t]? =
          s[t]?) := by
  intro sigs
  induction sigs with
  | nil =>
    intro j acc hacc hfit hbound
    refine ⟨hacc, fun q hq => rfl, fun i s hi => ?_⟩
    simp at hi
  | cons s₀ rest ih =>
    intro j acc hacc hfit hbound
    rw [List.enumFrom_cons]
    simp only [List.foldl_cons]
    have hs₀ : s₀.length ≤ R := hfit s₀ (by simp)
    have hstep : (j + 1) * R ≤ L := by
      refine le_trans (Nat.mul_le_mul_right R ?_) hbound
      simp only [List.length_cons]
      omega
    have hfit₀ : j * R + s₀.length ≤ acc.length := by
      rw [hacc]
      have h1 : j * R + s₀.length ≤ (j + 1) * R := by
        rw [Nat.succ_mul]
        omega
      omega
    have hacc' : (sliceAssign acc (j * R) (j * R + s₀.length) s₀).length = L := by
      rw [sliceAssign_length acc _ s₀ hfit₀, hacc]
    have hbound' : (j + 1 + rest.length) * R ≤ L := by
      rw [show j + 1 + rest.length = j + (s₀ :: rest).length by
        simp only [List.length_cons]
        omega]
      exact hbound
    obtain ⟨ihlen, ihfr, ihpl⟩ :=
      ih (j + 1) (sliceAssign acc (j * R) (j * R + s₀.length) s₀) hacc'
        (fun s hsm => hfit s (by simp [hsm])) hbound'
    refine ⟨ihlen, fun q hq => ?_, fun i s hi t ht => ?_⟩
    · have hq' : q < (j + 1) * R := by
        have : j * R ≤ (j + 1) * R := Nat.mul_le_mul_right R (by omega)
        omega
      rw [ihfr q hq', sliceAssign_getElem? acc _ s₀ hfit₀,
        if_neg (by omega)]
    · cases i with
      | zero =>
        simp only [List.getElem?_cons_zero, Option.some_inj] at hi
        subst hi
        have hq : (j + 0) * R + t < (j + 1) * R := by
          rw [Nat.add_zero, Nat.succ_mul]
          omega
        rw [ihfr _ hq, sliceAssign_getElem? acc _ s₀ hfit₀]
        rw [Nat.add_zero, if_pos (by constructor <;> omega)]
        congr 1
        omega
      | succ i =>
        rw [show j + (i + 1) = (j + 1) + i by omega]
        exact ihpl i s (by simpa using hi) t ht

/-- C7 (as stated) is false: with `regularInterval = 1` and the single
two-sample signal `"00"`, the slice assignment extends the timeline, whose
length becomes 2, not `k * R = 1`. -/
theorem C7_regular_interval_counterexample :
    ¬ ((composeRegular [['0', '0']] 1).length = 1 * 1) := by decide

/-- C7 (amended): when composing `k` message signals at a fixed interval
`R ≠ 0` and every signal is at most `R` samples long (the composer's
documented caller obligation — a longer signal makes the Python slice
assignment grow the timeline), the composed timeline has length exactly
`R * k` and, for every `i < k`, carries the `i`-th signal verbatim at
sample offset `i * R`. -/
theorem C7_regular_interval_amended (signals : List (List Char)) (R : Nat)
    (_hR : R ≠ 0) (hfit : ∀ s ∈ signals, s.length ≤ R) :
    (composeRegular signals R).length = R * signals.length ∧
    ∀ i s, signals[i]? = some s → ∀ t, t < s.length →
      (composeRegular signals R)[i * R + t]? = s[t]? := by
  have h := compose_foldl R (R * signals.length) signals 0
    (List.replicate (R * signals.length) '1') (by simp)
    hfit (by rw [Nat.zero_add, Nat.mul_comm])
  obtain ⟨hlen, _, hplace⟩ := h
  refine ⟨hlen, fun i s hi t ht => ?_⟩
  have := hplace i s hi t ht
  rw [Nat.zero_add] at this
  exact this

theorem C7_regular_interval_amended_witness :
    (composeRegular [['0'], ['0']] 2).length = 2 * 2 ∧
      (composeRegular [['0'], ['0']] 2)[1 * 2 + 0]? = some '0' :=
  ⟨(C7_regular_interval_amended [['0'], ['0']] 2 (by decide) (by decide)).1,
    (C7_regular_interval_amended [['0'], ['0']] 2 (by decide) (by decide)).2
      1 ['0'] (by decide) 0 (by decide)⟩

/-! ## Constructor lemmas: failure on over-long data -/

theorem setField_some_length {buf out : Buffer} {f : IEBusMessageField} {v : Nat}
    (h : setField buf f v = some out) : out.length = buf.length := by
  rw [setField, unpack_from] at h
  by_cases hb : f.BitOffset / 8 + 4 ≤ buf.length
  · rw [if_pos hb, Option.some_bind, pack_into] at h
    split at h
    · cases h
      exact length_pack_word _ _ _
    · cases h
  · rw [if_neg hb, Option.none_bind] at h
    cases h

theorem setField_none_of_oob {buf : Buffer} {f : IEBusMessageField} {v : Nat}
    (h : ¬(f.BitOffset / 8 + 4 ≤ buf.length)) : setField buf f v = none := by
  rw [setField, unpack_from, if_neg h, Option.none_bind]

theorem bcGroup_some_length {b : Nat} {buf out : Buffer}
    (h : bcGroup b buf = some out) : out.length = buf.length := by
  rw [bcGroup] at h
  split at h
  · exact setField_some_length h
  · cases h
    rfl

theorem masterGroup_some_length {m : Nat} {buf out : Buffer}
    (h : masterGroup m buf = some out) : out.length = buf.length := by
  rw [masterGroup] at h
  split at h
  · cases h1 : setField buf MasterAddress m with
    | none => rw [h1, Option.none_bind] at h; cases h
    | some b1 =>
      rw [h1, Option.some_bind] at h
      rw [setField_some_length h, setField_some_length h1]
  · cases h
    rfl

theorem slaveGroup_some_length {s : Nat} {buf out : Buffer}
    (h : slaveGroup s buf = some out) : out.length = buf.length := by
  rw [slaveGroup] at h
  split at h
  · cases h1 : setField buf SlaveAddress s with
    | none => rw [h1, Option.none_bind] at h; cases h
    | some b1 =>
      rw [h1, Option.some_bind] at h
      cases h2 : setField b1 SlaveAddress_P (calculateParity s).toNat with
      | none => rw [h2, Option.none_bind] at h; cases h
      | some b2 =>
        rw [h2, Option.some_bind] at h
        rw [setField_some_length h, setField_some_length h2, setField_some_length h1]
  · cases h
    rfl

theorem controlGroup_some_length {c : Nat} {buf out : Buffer}
    (h : controlGroup c buf = some out) : out.length = buf.length := by
  rw [controlGroup] at h
  split at h
  · cases h1 : setField buf Control c with
    | none => rw [h1, Option.none_bind] at h; cases h
    | some b1 =>
      rw [h1, Option.some_bind] at h
      cases h2 : setField b1 Control_P (calculateParity c).toNat with
      | none => rw [h2, Option.none_bind] at h; cases h
      | some b2 =>
        rw [h2, Option.some_bind] at h
        rw [setField_some_length h, setField_some_length h2, setField_some_length h1]
  · cases h
    rfl

/-- The data loop necessarily fails once it reaches index 47: the parity
field of data byte 47 starts at bit 522, byte 65, whose 4-byte window
overruns the 68-byte buffer. -/
theorem writeData_none :
    ∀ (data : List Nat) (buf : Buffer) (i : Nat), buf.length = 68 → i ≤ 47 →
      48 ≤ i + data.length → writeData buf i data = none := by
  intro data
  induction data with
  | nil =>
    intro buf i hlen hi h48
    exfalso
    simp only [List.length_nil] at h48
    omega
  | cons v rest ih =>
    intro buf i hlen hi h48
    rw [writeData]
    by_cases hi47 : i = 47
    · subst hi47
      cases h1 : setField buf (Data 47) v with
      | none => rw [Option.none_bind]
      | some b1 =>
        rw [Option.some_bind]
        have hb1 : b1.length = 68 := by rw [setField_some_length h1, hlen]
        rw [setField_none_of_oob (f := Data_P 47) (by rw [hb1]; decide),
          Option.none_bind]
    · cases h1 : setField buf (Data i) v with
      | none => rw [Option.none_bind]
      | some b1 =>
        rw [Option.some_bind]
        cases h2 : setField b1 (Data_P i) (calculateParity v).toNat with
        | none => rw [Option.none_bind]
        | some b2 =>
          rw [Option.some_bind]
          cases h3 : setField b2 (Data_A i) DefaultAckVal with
          | none => rw [Option.none_bind]
          | some b3 =>
            rw [Option.some_bind]
            refine ih b3 (i + 1) ?_ (by omega) ?_
            · rw [setField_some_length h3, setField_some_length h2,
                setField_some_length h1, hlen]
            · simp only [List.length_cons] at h48
              omega

theorem dataGroup_none {data : List Nat} {buf : Buffer} (hlen : buf.length = 68)
    (h48 : 48 ≤ data.length) : dataGroup data buf = none := by
  rw [dataGroup, if_pos (by intro h; rw [h] at h48; simp at h48)]
  cases h1 : setField buf DataLength data.length with
  | none => rw [Option.none_bind]
  | some b1 =>
    rw [Option.some_bind]
    cases h2 : setField b1 DataLength_P (calculateParity data.length).toNat with
    | none => rw [Option.none_bind]
    | some b2 =>
      rw [Option.some_bind]
      cases h3 : setField b2 DataLength_A DefaultAckVal with
      | none => rw [Option.none_bind]
      | some b3 =>
        rw [Option.some_bind]
        refine writeData_none data b3 0 ?_ (by omega) (by omega)
        rw [setField_some_length h3, setField_some_length h2,
          setField_some_length h1, hlen]

theorem initFields_none (broadcast master_address slave_address control : Nat)
    (data : List Nat) (h48 : 48 ≤ data.length) :
    initFields broadcast master_address slave_address control data = none := by
  rw [initFields]
  cases hg1 : bcGroup broadcast (List.replicate (MaxMessageLenBytes + 4) 0) with
  | none => rw [Option.none_bind]
  | some b1 =>
    rw [Option.some_bind]
    cases hg2 : masterGroup master_address b1 with
    | none => rw [Option.none_bind]
    | some b2 =>
      rw [Option.some_bind]
      cases hg3 : slaveGroup slave_address b2 with
      | none => rw [Option.none_bind]
      | some b3 =>
        rw [Option.some_bind]
        cases hg4 : controlGroup control b3 with
        | none => rw [Option.none_bind]
        | some b4 =>
          rw [Option.some_bind]
          refine dataGroup_none ?_ h48
          rw [controlGroup_some_length hg4, slaveGroup_some_length hg3,
            masterGroup_some_length hg2, bcGroup_some_length hg1]
          simp [MaxMessageLenBytes]

theorem length_of_mapM_parseHex :
    ∀ (rest : List (List Char)) (data : List Nat),
      rest.mapM parseHex = some data → data.length = rest.length := by
  intro rest
  induction rest with
  | nil =>
    intro data h
    rw [List.mapM_nil] at h
    cases h
    rfl
  | cons x xs ih =>
    intro data h
    rw [List.mapM_cons] at h
    cases hx : parseHex x with
    | none => rw [hx] at h; cases h
    | some y =>
      rw [hx] at h
      cases hxs : xs.mapM parseHex with
      | none => rw [hxs] at h; cases h
      | some ys =>
        rw [hxs] at h
        cases h
        simp [ih ys hxs]

/-- C8: both the structured-field constructor and the token-string
constructor fail at construction time when given more than 64 data bytes
(in the model: the construction returns `none`, as Python raises — the
failing write is the parity bit of data byte 47, whose 4-byte window
overruns the guarded buffer). -/
theorem C8_data_length_limit :
    (∀ (broadcast master_address slave_address control : Nat) (data : List Nat),
      64 < data.length →
      initFields broadcast master_address slave_address control data = none) ∧
    (∀ (s p0 p1 p2 : List Char) (rest : List (List Char)),
      splitWs (s.filter (· ≠ ':')) = p0 :: p1 :: p2 :: rest → 64 < rest.length →
      fromString s = none) := by
  constructor
  · intro broadcast master_address slave_address control data h64
    exact initFields_none _ _ _ _ data (by omega)
  · intro s p0 p1 p2 rest hsplit h64
    rw [fromString, hsplit]
    show ((parseHex p1).bind fun master_address =>
        (parseHex p2).bind fun slave_address =>
          (rest.mapM parseHex).bind fun data =>
            initFields (if p0 = ['B'] then 0 else 1) master_address slave_address
              15 data) = none
    cases h1 : parseHex p1 with
    | none => rw [Option.none_bind]
    | some m =>
      rw [Option.some_bind]
      cases h2 : parseHex p2 with
      | none => rw [Option.none_bind]
      | some sl =>
        rw [Option.some_bind]
        cases h3 : rest.mapM parseHex with
        | none => rw [Option.none_bind]
        | some data =>
          rw [Option.some_bind]
          refine initFields_none _ _ _ _ data ?_
          rw [length_of_mapM_parseHex rest data h3]
          omega

set_option maxRecDepth 8192 in
theorem C8_data_length_limit_witness :
    initFields 1 1 1 15 (List.replicate 65 0) = none ∧
      fromString ("- 1 1 a5 a5 a5 a5 a5 a5 a5 a5 a5 a5 a5 a5 a5 a5 a5 a5 a5 a5 a5 a5 a5 a5 a5 a5 a5 a5 a5 a5 a5 a5 a5 a5 a5 a5 a5 a5 a5 a5 a5 a5 a5 a5 a5 a5 a5 a5 a5 a5 a5 a5 a5 a5 a5 a5 a5 a5 a5 a5 a5 a5 a5 a5 a5 a5 a5".toList) = none :=
  ⟨C8_data_length_limit.1 1 1 1 15 (List.replicate 65 0) (by decide),
    C8_data_length_limit.2 _ ['-'] ['1'] ['1']
      (List.replicate 65 ['a', '5']) (by decide) (by decide)⟩

/-! ## Constructor lemmas: the successful path -/

theorem adm68 {buf : Buffer} (hlen : buf.length = 68) (f : IEBusMessageField)
    (hf : f.BitOffset / 8 + 4 ≤ 68 ∧ f.LengthBits + f.BitOffset % 8 ≤ 32) :
    Admissible buf f :=
  ⟨by rw [hlen]; exact hf.1, hf.2⟩

theorem adm_Data {buf : Buffer} (hlen : buf.length = 68) {i : Nat} (hi : i ≤ 47) :
    Admissible buf (Data i) := by
  constructor
  · rw [hlen]
    simp only [Data, DataFieldLength]
    omega
  · simp only [Data, DataFieldLength]
    omega

theorem adm_Data_P {buf : Buffer} (hlen : buf.length = 68) {i : Nat} (hi : i ≤ 46) :
    Admissible buf (Data_P i) := by
  constructor
  · rw [hlen]
    simp only [Data_P, DataFieldLength]
    omega
  · simp only [Data_P, DataFieldLength]
    omega

theorem adm_Data_A {buf : Buffer} (hlen : buf.length = 68) {i : Nat} (hi : i ≤ 46) :
    Admissible buf (Data_A i) := by
  constructor
  · rw [hlen]
    simp only [Data_A, DataFieldLength]
    omega
  · simp only [Data_A, DataFieldLength]
    omega

theorem getRaw_replicate_zero (f : IEBusMessageField) :
    getRaw (List.replicate 68 0) f = 0 := by
  have hz : ∀ p, (List.replicate 68 (0 : Nat)).getD p 0 = 0 := by
    intro p
    rcases lt_or_ge p 68 with hp | hp
    · rw [List.getD_eq_getElem _ _ (by simpa using hp)]
      rw [List.getElem_replicate]
    · rw [List.getD_eq_getElem?_getD, List.getElem?_eq_none (by simpa using hp)]
      rfl
  rw [getRaw, unpack_word, hz, hz, hz, hz]
  simp

theorem length_writeDataRaw :
    ∀ (data : List Nat) (buf : Buffer) (i : Nat),
      (writeDataRaw buf i data).length = buf.length := by
  intro data
  induction data with
  | nil => intro buf i; rfl
  | cons v rest ih =>
    intro buf i
    rw [writeDataRaw, ih, length_setRaw, length_setRaw, length_setRaw]

theorem BytesOk_writeDataRaw :
    ∀ (data : List Nat) (buf : Buffer) (i : Nat), BytesOk buf →
      BytesOk (writeDataRaw buf i data) := by
  intro data
  induction data with
  | nil => intro buf i hB; exact hB
  | cons v rest ih =>
    intro buf i hB
    rw [writeDataRaw]
    exact ih _ _ (BytesOk_setRaw (BytesOk_setRaw (BytesOk_setRaw hB _ _) _ _) _ _)

/-- Reads of fields that lie entirely below the data region written from
index `i` pass through the data loop unchanged. -/
theorem getRaw_writeDataRaw_lo :
    ∀ (data : List Nat) (buf : Buffer) (i : Nat) (f : IEBusMessageField),
      BytesOk buf → buf.length = 68 → (∀ x ∈ data, x < 256) →
      i + data.length ≤ 47 → f.LengthBits + f.BitOffset % 8 ≤ 32 →
      f.BitOffset + f.LengthBits ≤ 44 + 10 * i →
      getRaw (writeDataRaw buf i data) f = getRaw buf f := by
  intro data
  induction data with
  | nil => intro buf i f _ _ _ _ _ _; rfl
  | cons v rest ih =>
    intro buf i f hB hlen hd hbound hf32 hlo
    have hi46 : i ≤ 46 := by
      simp only [List.length_cons] at hbound
      omega
    have hv : v < 2 ^ (Data i).LengthBits := by
      simpa [Data] using hd v (by simp)
    rw [writeDataRaw]
    rw [ih _ (i + 1) f
      (BytesOk_setRaw (BytesOk_setRaw (BytesOk_setRaw hB _ _) _ _) _ _)
      (by rw [length_setRaw, length_setRaw, length_setRaw, hlen])
      (fun x hx => hd x (by simp [hx]))
      (by simp only [List.length_cons] at hbound; omega) hf32 (by omega)]
    rw [getRaw_setRaw_disjoint
      (BytesOk_setRaw (BytesOk_setRaw hB _ _) _ _)
      (adm_Data_A (by rw [length_setRaw, length_setRaw, hlen]) hi46) hf32
      (by simp [Data_A, DefaultAckVal])
      (Or.inl (by simp only [Data_A, DataFieldLength]; omega))]
    rw [getRaw_setRaw_disjoint (BytesOk_setRaw hB _ _)
      (adm_Data_P (by rw [length_setRaw, hlen]) hi46) hf32
      (by simp [Data_P]; exact Bool.toNat_lt _)
      (Or.inl (by simp only [Data_P, DataFieldLength]; omega))]
    rw [getRaw_setRaw_disjoint hB (adm_Data hlen (by omega)) hf32 hv
      (Or.inl (by simp only [Data, DataFieldLength]; omega))]

/-- The data loop stores each data byte and its parity where `isValid`
reads them back. -/
theorem writeDataRaw_reads :
    ∀ (data : List Nat) (buf : Buffer) (i : Nat), BytesOk buf →
      buf.length = 68 → (∀ x ∈ data, x < 256) → i + data.length ≤ 47 →
      ∀ j (hj : j < data.length),
        getRaw (writeDataRaw buf i data) (Data (i + j)) = data.get ⟨j, hj⟩ ∧
        getRaw (writeDataRaw buf i data) (Data_P (i + j)) =
          (calculateParity (data.get ⟨j, hj⟩)).toNat := by
  intro data
  induction data with
  | nil =>
    intro buf i _ _ _ _ j hj
    exact absurd hj (by simp)
  | cons v rest ih =>
    intro buf i hB hlen hd hbound j hj
    have hi46 : i ≤ 46 := by
      simp only [List.length_cons] at hbound
      omega
    have hv : v < 2 ^ (Data i).LengthBits := by
      simpa [Data] using hd v (by simp)
    have hB1 : BytesOk (setRaw buf (Data i) v) := BytesOk_setRaw hB _ _
    have hB2 : BytesOk (setRaw (setRaw buf (Data i) v) (Data_P i)
        (calculateParity v).toNat) := BytesOk_setRaw hB1 _ _
    have hB3 : BytesOk (setRaw (setRaw (setRaw buf (Data i) v) (Data_P i)
        (calculateParity v).toNat) (Data_A i) DefaultAckVal) := BytesOk_setRaw hB2 _ _
    have hlen1 : (setRaw buf (Data i) v).length = 68 := by rw [length_setRaw, hlen]
    have hlen2 : (setRaw (setRaw buf (Data i) v) (Data_P i)
        (calculateParity v).toNat).length = 68 := by rw [length_setRaw, hlen1]
    have hlen3 : (setRaw (setRaw (setRaw buf (Data i) v) (Data_P i)
        (calculateParity v).toNat) (Data_A i) DefaultAckVal).length = 68 := by
      rw [length_setRaw, hlen2]
    have hd' : ∀ x ∈ rest, x < 256 := fun x hx => hd x (by simp [hx])
    have hbound' : (i + 1) + rest.length ≤ 47 := by
      simp only [List.length_cons] at hbound
      omega
    cases j with
    | zero =>
      rw [Nat.add_zero, writeDataRaw]
      constructor
      · rw [getRaw_writeDataRaw_lo rest _ (i + 1) (Data i) hB3 hlen3 hd' hbound'
          (by simp only [Data, DataFieldLength]; omega)
          (by simp only [Data, DataFieldLength]; omega)]
        rw [getRaw_setRaw_disjoint hB2 (adm_Data_A hlen2 hi46)
          (by simp only [Data, DataFieldLength]; omega)
          (by simp [Data_A, DefaultAckVal])
          (Or.inl (by simp only [Data, Data_A, DataFieldLength]; omega))]
        rw [getRaw_setRaw_disjoint hB1 (adm_Data_P hlen1 hi46)
          (by simp only [Data, DataFieldLength]; omega)
          (by simp [Data_P]; exact Bool.toNat_lt _)
          (Or.inl (by simp only [Data, Data_P, DataFieldLength]; omega))]
        exact getRaw_setRaw_self hB (adm_Data hlen (by omega)) hv
      · rw [getRaw_writeDataRaw_lo rest _ (i + 1) (Data_P i) hB3 hlen3 hd' hbound'
          (by simp only [Data_P, DataFieldLength]; omega)
          (by simp only [Data_P, DataFieldLength]; omega)]
        rw [getRaw_setRaw_disjoint hB2 (adm_Data_A hlen2 hi46)
          (by simp only [Data_P, DataFieldLength]; omega)
          (by simp [Data_A, DefaultAckVal])
          (Or.inl (by simp only [Data_P, Data_A, DataFieldLength]; omega))]
        exact getRaw_setRaw_self hB1 (adm_Data_P hlen1 hi46)
          (by simp [Data_P]; exact Bool.toNat_lt _)
    | succ j =>
      rw [writeDataRaw, show i + (j + 1) = (i + 1) + j by omega]
      exact ih _ (i + 1) hB3 hlen3 hd' hbound' j
        (by simp only [List.length_cons] at hj; omega)

theorem length_bcGroupRaw (b : Nat) (buf : Buffer) :
    (bcGroupRaw b buf).length = buf.length := by
  rw [bcGroupRaw]
  split <;> simp [length_setRaw]

theorem BytesOk_bcGroupRaw (b : Nat) {buf : Buffer} (hB : BytesOk buf) :
    BytesOk (bcGroupRaw b buf) := by
  rw [bcGroupRaw]
  split
  · exact BytesOk_setRaw hB _ _
  · exact hB

theorem length_masterGroupRaw (m : Nat) (buf : Buffer) :
    (masterGroupRaw m buf).length = buf.length := by
  rw [masterGroupRaw]
  split <;> simp [length_setRaw]

theorem BytesOk_masterGroupRaw (m : Nat) {buf : Buffer} (hB : BytesOk buf) :
    BytesOk (masterGroupRaw m buf) := by
  rw [masterGroupRaw]
  split
  · exact BytesOk_setRaw (BytesOk_setRaw hB _ _) _ _
  · exact hB

theorem length_slaveGroupRaw (s : Nat) (buf : Buffer) :
    (slaveGroupRaw s buf).length = buf.length := by
  rw [slaveGroupRaw]
  split <;> simp [length_setRaw]

theorem BytesOk_slaveGroupRaw (s : Nat) {buf : Buffer} (hB : BytesOk buf) :
    BytesOk (slaveGroupRaw s buf) := by
  rw [slaveGroupRaw]
  split
  · exact BytesOk_setRaw (BytesOk_setRaw (BytesOk_setRaw hB _ _) _ _) _ _
  · exact hB

theorem length_controlGroupRaw (c : Nat) (buf : Buffer) :
    (controlGroupRaw c buf).length = buf.length := by
  rw [controlGroupRaw]
  split <;> simp [length_setRaw]

theorem BytesOk_controlGroupRaw (c : Nat) {buf : Buffer} (hB : BytesOk buf) :
    BytesOk (controlGroupRaw c buf) := by
  rw [controlGroupRaw]
  split
  · exact BytesOk_setRaw (BytesOk_setRaw (BytesOk_setRaw hB _ _) _ _) _ _
  · exact hB

theorem length_dataGroupRaw (data : List Nat) (buf : Buffer) :
    (dataGroupRaw data buf).length = buf.length := by
  rw [dataGroupRaw]
  split <;> simp [length_writeDataRaw, length_setRaw]

theorem BytesOk_dataGroupRaw (data : List Nat) {buf : Buffer} (hB : BytesOk buf) :
    BytesOk (dataGroupRaw data buf) := by
  rw [dataGroupRaw]
  split
  · exact BytesOk_writeDataRaw _ _ _
      (BytesOk_setRaw (BytesOk_setRaw (BytesOk_setRaw hB _ _) _ _) _ _)
  · exact hB

/-- Reads disjoint from the broadcast bit pass through `bcGroupRaw`. -/
theorem getRaw_bcGroupRaw_disjoint {buf : Buffer} {b : Nat} {f : IEBusMessageField}
    (hB : BytesOk buf) (hlen : buf.length = 68) (hb : b < 2)
    (hf32 : f.LengthBits + f.BitOffset % 8 ≤ 32)
    (hdisj : f.BitOffset + f.LengthBits ≤ 0 ∨ 1 ≤ f.BitOffset) :
    getRaw (bcGroupRaw b buf) f = getRaw buf f := by
  rw [bcGroupRaw]
  split
  · exact getRaw_setRaw_disjoint hB (adm68 hlen Broadcast (by decide)) hf32
      (by simpa [Broadcast] using hb)
      (by simp only [Broadcast]; omega)
  · rfl

/-- Reads disjoint from bits `[1, 14)` pass through `masterGroupRaw`. -/
theorem getRaw_masterGroupRaw_disjoint {buf : Buffer} {m : Nat}
    {f : IEBusMessageField} (hB : BytesOk buf) (hlen : buf.length = 68)
    (hm : m < 2 ^ 12) (hf32 : f.LengthBits + f.BitOffset % 8 ≤ 32)
    (hdisj : f.BitOffset + f.LengthBits ≤ 1 ∨ 14 ≤ f.BitOffset) :
    getRaw (masterGroupRaw m buf) f = getRaw buf f := by
  rw [masterGroupRaw]
  split
  · rw [getRaw_setRaw_disjoint (BytesOk_setRaw hB _ _)
      (adm68 (by rw [length_setRaw, hlen]) MasterAddress_P (by decide)) hf32
      (by simp [MasterAddress_P]; exact Bool.toNat_lt _)
      (by simp only [MasterAddress_P]; omega)]
    exact getRaw_setRaw_disjoint hB (adm68 hlen MasterAddress (by decide)) hf32
      (by simpa [MasterAddress] using hm)
      (by simp only [MasterAddress]; omega)
  · rfl

/-- Reads disjoint from bits `[14, 28)` pass through `slaveGroupRaw`. -/
theorem getRaw_slaveGroupRaw_disjoint {buf : Buffer} {s : Nat}
    {f : IEBusMessageField} (hB : BytesOk buf) (hlen : buf.length = 68)
    (hs : s < 2 ^ 12) (hf32 : f.LengthBits + f.BitOffset % 8 ≤ 32)
    (hdisj : f.BitOffset + f.LengthBits ≤ 14 ∨ 28 ≤ f.BitOffset) :
    getRaw (slaveGroupRaw s buf) f = getRaw buf f := by
  rw [slaveGroupRaw]
  split
  · rw [getRaw_setRaw_disjoint
      (BytesOk_setRaw (BytesOk_setRaw hB _ _) _ _)
      (adm68 (by rw [length_setRaw, length_setRaw, hlen]) SlaveAddress_A (by decide))
      hf32 (by simp [SlaveAddress_A, DefaultAckVal])
      (by simp only [SlaveAddress_A]; omega)]
    rw [getRaw_setRaw_disjoint (BytesOk_setRaw hB _ _)
      (adm68 (by rw [length_setRaw, hlen]) SlaveAddress_P (by decide)) hf32
      (by simp [SlaveAddress_P]; exact Bool.toNat_lt _)
      (by simp only [SlaveAddress_P]; omega)]
    exact getRaw_setRaw_disjoint hB (adm68 hlen SlaveAddress (by decide)) hf32
      (by simpa [SlaveAddress] using hs)
      (by simp only [SlaveAddress]; omega)
  · rfl

/-- Reads disjoint from bits `[28, 34)` pass through `controlGroupRaw`. -/
theorem getRaw_controlGroupRaw_disjoint {buf : Buffer} {c : Nat}
    {f : IEBusMessageField} (hB : BytesOk buf) (hlen : buf.length = 68)
    (hc : c < 2 ^ 4) (hf32 : f.LengthBits + f.BitOffset % 8 ≤ 32)
    (hdisj : f.BitOffset + f.LengthBits ≤ 28 ∨ 34 ≤ f.BitOffset) :
    getRaw (controlGroupRaw c buf) f = getRaw buf f := by
  rw [controlGroupRaw]
  split
  · rw [getRaw_setRaw_disjoint
      (BytesOk_setRaw (BytesOk_setRaw hB _ _) _ _)
      (adm68 (by rw [length_setRaw, length_setRaw, hlen]) Control_A (by decide))
      hf32 (by simp [Control_A, DefaultAckVal])
      (by simp only [Control_A]; omega)]
    rw [getRaw_setRaw_disjoint (BytesOk_setRaw hB _ _)
      (adm68 (by rw [length_setRaw, hlen]) Control_P (by decide)) hf32
      (by simp [Control_P]; exact Bool.toNat_lt _)
      (by simp only [Control_P]; omega)]
    exact getRaw_setRaw_disjoint hB (adm68 hlen Control (by decide)) hf32
      (by simpa [Control] using hc)
      (by simp only [Control]; omega)
  · rfl

/-- Reads of fields strictly below bit 34 pass through `dataGroupRaw`. -/
theorem getRaw_dataGroupRaw_lo {buf : Buffer} {data : List Nat}
    {f : IEBusMessageField} (hB : BytesOk buf) (hlen : buf.length = 68)
    (hd : ∀ x ∈ data, x < 256) (h47 : data.length ≤ 47)
    (hf32 : f.LengthBits + f.BitOffset % 8 ≤ 32)
    (hlo : f.BitOffset + f.LengthBits ≤ 34) :
    getRaw (dataGroupRaw data buf) f = getRaw buf f := by
  rw [dataGroupRaw]
  split
  · have hlen1 : (setRaw buf DataLength data.length).length = 68 := by
      rw [length_setRaw, hlen]
    have hlen2 : (setRaw (setRaw buf DataLength data.length) DataLength_P
        (calculateParity data.length).toNat).length = 68 := by
      rw [length_setRaw, hlen1]
    have hlen3 : (setRaw (setRaw (setRaw buf DataLength data.length) DataLength_P
        (calculateParity data.length).toNat) DataLength_A DefaultAckVal).length = 68 := by
      rw [length_setRaw, hlen2]
    have hB1 := BytesOk_setRaw hB DataLength data.length
    have hB2 := BytesOk_setRaw hB1 DataLength_P (calculateParity data.length).toNat
    have hB3 := BytesOk_setRaw hB2 DataLength_A DefaultAckVal
    rw [getRaw_writeDataRaw_lo data _ 0 f hB3 hlen3 hd (by omega) hf32 (by omega)]
    rw [getRaw_setRaw_disjoint hB2 (adm68 hlen2 DataLength_A (by decide)) hf32
      (by simp [DataLength_A, DefaultAckVal])
      (by simp only [DataLength_A]; omega)]
    rw [getRaw_setRaw_disjoint hB1 (adm68 hlen1 DataLength_P (by decide)) hf32
      (by simp [DataLength_P]; exact Bool.toNat_lt _)
      (by simp only [DataLength_P]; omega)]
    exact getRaw_setRaw_disjoint hB (adm68 hlen DataLength (by decide)) hf32
      (by simp only [DataLength]; omega)
      (by simp only [DataLength]; omega)
  · rfl

/-- `masterGroupRaw` leaves the master address and its parity consistent:
either it writes them, or both stay zero (and `parity 0 = 0`). -/
theorem masterGroupRaw_reads {buf : Buffer} {m : Nat} (hB : BytesOk buf)
    (hlen : buf.length = 68) (hm : m < 2 ^ 12)
    (hz : getRaw buf MasterAddress = 0) (hzp : getRaw buf MasterAddress_P = 0) :
    getRaw (masterGroupRaw m buf) MasterAddress = m ∧
    getRaw (masterGroupRaw m buf) MasterAddress_P = (calculateParity m).toNat := by
  rw [masterGroupRaw]
  by_cases hm0 : m ≠ 0
  · rw [if_pos hm0]
    constructor
    · rw [getRaw_setRaw_disjoint (BytesOk_setRaw hB _ _)
        (adm68 (by rw [length_setRaw, hlen]) MasterAddress_P (by decide))
        (by decide) (by simp [MasterAddress_P]; exact Bool.toNat_lt _)
        (Or.inl (by decide))]
      exact getRaw_setRaw_self hB (adm68 hlen MasterAddress (by decide))
        (by simpa [MasterAddress] using hm)
    · exact getRaw_setRaw_self (BytesOk_setRaw hB _ _)
        (adm68 (by rw [length_setRaw, hlen]) MasterAddress_P (by decide))
        (by simp [MasterAddress_P]; exact Bool.toNat_lt _)
  · rw [if_neg hm0]
    push_neg at hm0
    subst hm0
    exact ⟨hz, by rw [hzp]; decide⟩

/-- `slaveGroupRaw` leaves the slave address and its parity consistent. -/
theorem slaveGroupRaw_reads {buf : Buffer} {s : Nat} (hB : BytesOk buf)
    (hlen : buf.length = 68) (hs : s < 2 ^ 12)
    (hz : getRaw buf SlaveAddress = 0) (hzp : getRaw buf SlaveAddress_P = 0) :
    getRaw (slaveGroupRaw s buf) SlaveAddress = s ∧
    getRaw (slaveGroupRaw s buf) SlaveAddress_P = (calculateParity s).toNat := by
  rw [slaveGroupRaw]
  by_cases hs0 : s ≠ 0
  · rw [if_pos hs0]
    have hB1 := BytesOk_setRaw hB SlaveAddress s
    have hlen1 : (setRaw buf SlaveAddress s).length = 68 := by
      rw [length_setRaw, hlen]
    have hB2 := BytesOk_setRaw hB1 SlaveAddress_P (calculateParity s).toNat
    have hlen2 : (setRaw (setRaw buf SlaveAddress s) SlaveAddress_P
        (calculateParity s).toNat).length = 68 := by rw [length_setRaw, hlen1]
    constructor
    · rw [getRaw_setRaw_disjoint hB2 (adm68 hlen2 SlaveAddress_A (by decide))
        (by decide) (by simp [SlaveAddress_A, DefaultAckVal]) (Or.inl (by decide))]
      rw [getRaw_setRaw_disjoint hB1 (adm68 hlen1 SlaveAddress_P (by decide))
        (by decide) (by simp [SlaveAddress_P]; exact Bool.toNat_lt _)
        (Or.inl (by decide))]
      exact getRaw_setRaw_self hB (adm68 hlen SlaveAddress (by decide))
        (by simpa [SlaveAddress] using hs)
    · rw [getRaw_setRaw_disjoint hB2 (adm68 hlen2 SlaveAddress_A (by decide))
        (by decide) (by simp [SlaveAddress_A, DefaultAckVal]) (Or.inl (by decide))]
      exact getRaw_setRaw_self hB1 (adm68 hlen1 SlaveAddress_P (by decide))
        (by simp [SlaveAddress_P]; exact Bool.toNat_lt _)
  · rw [if_neg hs0]
    push_neg at hs0
    subst hs0
    exact ⟨hz, by rw [hzp]; decide⟩

/-- `controlGroupRaw` leaves the control field and its parity consistent. -/
theorem controlGroupRaw_reads {buf : Buffer} {c : Nat} (hB : BytesOk buf)
    (hlen : buf.length = 68) (hc : c < 2 ^ 4)
    (hz : getRaw buf Control = 0) (hzp : getRaw buf Control_P = 0) :
    getRaw (controlGroupRaw c buf) Control = c ∧
    getRaw (controlGroupRaw c buf) Control_P = (calculateParity c).toNat := by
  rw [controlGroupRaw]
  by_cases hc0 : c ≠ 0
  · rw [if_pos hc0]
    have hB1 := BytesOk_setRaw hB Control c
    have hlen1 : (setRaw buf Control c).length = 68 := by rw [length_setRaw, hlen]
    have hB2 := BytesOk_setRaw hB1 Control_P (calculateParity c).toNat
    have hlen2 : (setRaw (setRaw buf Control c) Control_P
        (calculateParity c).toNat).length = 68 := by rw [length_setRaw, hlen1]
    constructor
    · rw [getRaw_setRaw_disjoint hB2 (adm68 hlen2 Control_A (by decide))
        (by decide) (by simp [Control_A, DefaultAckVal]) (Or.inl (by decide))]
      rw [getRaw_setRaw_disjoint hB1 (adm68 hlen1 Control_P (by decide))
        (by decide) (by simp [Control_P]; exact Bool.toNat_lt _)
        (Or.inl (by decide))]
      exact getRaw_setRaw_self hB (adm68 hlen Control (by decide))
        (by simpa [Control] using hc)
    · rw [getRaw_setRaw_disjoint hB2 (adm68 hlen2 Control_A (by decide))
        (by decide) (by simp [Control_A, DefaultAckVal]) (Or.inl (by decide))]
      exact getRaw_setRaw_self hB1 (adm68 hlen1 Control_P (by decide))
        (by simp [Control_P]; exact Bool.toNat_lt _)
  · rw [if_neg hc0]
    push_neg at hc0
    subst hc0
    exact ⟨hz, by rw [hzp]; decide⟩

/-- `dataGroupRaw` stores the data length, its parity, and every data byte
with its parity, consistently. -/
theorem dataGroupRaw_reads {buf : Buffer} {data : List Nat} (hB : BytesOk buf)
    (hlen : buf.length = 68) (hd : ∀ x ∈ data, x < 256) (h47 : data.length ≤ 47)
    (hz : getRaw buf DataLength = 0) (hzp : getRaw buf DataLength_P = 0) :
    getRaw (dataGroupRaw data buf) DataLength = data.length ∧
    getRaw (dataGroupRaw data buf) DataLength_P =
      (calculateParity data.length).toNat ∧
    ∀ j (hj : j < data.length),
      getRaw (dataGroupRaw data buf) (Data j) = data.get ⟨j, hj⟩ ∧
      getRaw (dataGroupRaw data buf) (Data_P j) =
        (calculateParity (data.get ⟨j, hj⟩)).toNat := by
  rw [dataGroupRaw]
  by_cases hd0 : data ≠ []
  · rw [if_pos hd0]
    have hB1 := BytesOk_setRaw hB DataLength data.length
    have hlen1 : (setRaw buf DataLength data.length).length = 68 := by
      rw [length_setRaw, hlen]
    have hB2 := BytesOk_setRaw hB1 DataLength_P (calculateParity data.length).toNat
    have hlen2 : (setRaw (setRaw buf DataLength data.length) DataLength_P
        (calculateParity data.length).toNat).length = 68 := by
      rw [length_setRaw, hlen1]
    have hB3 := BytesOk_setRaw hB2 DataLength_A DefaultAckVal
    have hlen3 : (setRaw (setRaw (setRaw buf DataLength data.length) DataLength_P
        (calculateParity data.length).toNat) DataLength_A DefaultAckVal).length = 68 := by
      rw [length_setRaw, hlen2]
    have hlenv : data.length < 2 ^ DataLength.LengthBits := by
      simp only [DataLength]
      omega
    refine ⟨?_, ?_, ?_⟩
    · rw [getRaw_writeDataRaw_lo data _ 0 DataLength hB3 hlen3 hd (by omega)
        (by decide) (by decide)]
      rw [getRaw_setRaw_disjoint hB2 (adm68 hlen2 DataLength_A (by decide))
        (by decide) (by simp [DataLength_A, DefaultAckVal]) (Or.inl (by decide))]
      rw [getRaw_setRaw_disjoint hB1 (adm68 hlen1 DataLength_P (by decide))
        (by decide) (by simp [DataLength_P]; exact Bool.toNat_lt _)
        (Or.inl (by decide))]
      exact getRaw_setRaw_self hB (adm68 hlen DataLength (by decide)) hlenv
    · rw [getRaw_writeDataRaw_lo data _ 0 DataLength_P hB3 hlen3 hd (by omega)
        (by decide) (by decide)]
      rw [getRaw_setRaw_disjoint hB2 (adm68 hlen2 DataLength_A (by decide))
        (by decide) (by simp [DataLength_A, DefaultAckVal]) (Or.inl (by decide))]
      exact getRaw_setRaw_self hB1 (adm68 hlen1 DataLength_P (by decide))
        (by simp [DataLength_P]; exact Bool.toNat_lt _)
    · intro j hj
      have := writeDataRaw_reads data _ 0 hB3 hlen3 hd (by omega) j hj
      rw [Nat.zero_add] at this
      exact this
  · rw [if_neg hd0]
    push_neg at hd0
    subst hd0
    refine ⟨by simpa using hz, by rw [hzp]; decide, ?_⟩
    intro j hj
    exact absurd hj (by simp)

theorem writeData_eq_raw :
    ∀ (data : List Nat) (buf : Buffer) (i : Nat), BytesOk buf →
      buf.length = 68 → (∀ x ∈ data, x < 256) → i + data.length ≤ 47 →
      writeData buf i data = some (writeDataRaw buf i data) := by
  intro data
  induction data with
  | nil => intro buf i _ _ _ _; rfl
  | cons v rest ih =>
    intro buf i hB hlen hd hbound
    have hi46 : i ≤ 46 := by
      simp only [List.length_cons] at hbound
      omega
    have hv : v < 2 ^ (Data i).LengthBits := by
      simpa [Data] using hd v (by simp)
    rw [writeData, writeDataRaw]
    rw [setField_eq_setRaw hB (adm_Data hlen (by omega)) hv, Option.some_bind]
    rw [setField_eq_setRaw (BytesOk_setRaw hB _ _)
      (adm_Data_P (by rw [length_setRaw, hlen]) hi46)
      (by simp [Data_P]; exact Bool.toNat_lt _), Option.some_bind]
    rw [setField_eq_setRaw (BytesOk_setRaw (BytesOk_setRaw hB _ _) _ _)
      (adm_Data_A (by rw [length_setRaw, length_setRaw, hlen]) hi46)
      (by simp [Data_A, DefaultAckVal]), Option.some_bind]
    exact ih _ (i + 1)
      (BytesOk_setRaw (BytesOk_setRaw (BytesOk_setRaw hB _ _) _ _) _ _)
      (by rw [length_setRaw, length_setRaw, length_setRaw, hlen])
      (fun x hx => hd x (by simp [hx]))
      (by simp only [List.length_cons] at hbound; omega)

theorem bcGroup_eq_raw {buf : Buffer} {b : Nat} (hB : BytesOk buf)
    (hlen : buf.length = 68) (hb : b < 2) :
    bcGroup b buf = some (bcGroupRaw b buf) := by
  rw [bcGroup, bcGroupRaw]
  split
  · exact setField_eq_setRaw hB (adm68 hlen Broadcast (by decide))
      (by simpa [Broadcast] using hb)
  · rfl

theorem masterGroup_eq_raw {buf : Buffer} {m : Nat} (hB : BytesOk buf)
    (hlen : buf.length = 68) (hm : m < 2 ^ 12) :
    masterGroup m buf = some (masterGroupRaw m buf) := by
  rw [masterGroup, masterGroupRaw]
  split
  · rw [setField_eq_setRaw hB (adm68 hlen MasterAddress (by decide))
      (by simpa [MasterAddress] using hm), Option.some_bind]
    exact setField_eq_setRaw (BytesOk_setRaw hB _ _)
      (adm68 (by rw [length_setRaw, hlen]) MasterAddress_P (by decide))
      (by simp [MasterAddress_P]; exact Bool.toNat_lt _)
  · rfl

theorem slaveGroup_eq_raw {buf : Buffer} {s : Nat} (hB : BytesOk buf)
    (hlen : buf.length = 68) (hs : s < 2 ^ 12) :
    slaveGroup s buf = some (slaveGroupRaw s buf) := by
  rw [slaveGroup, slaveGroupRaw]
  split
  · rw [setField_eq_setRaw hB (adm68 hlen SlaveAddress (by decide))
      (by simpa [SlaveAddress] using hs), Option.some_bind]
    rw [setField_eq_setRaw (BytesOk_setRaw hB _ _)
      (adm68 (by rw [length_setRaw, hlen]) SlaveAddress_P (by decide))
      (by simp [SlaveAddress_P]; exact Bool.toNat_lt _), Option.some_bind]
    exact setField_eq_setRaw (BytesOk_setRaw (BytesOk_setRaw hB _ _) _ _)
      (adm68 (by rw [length_setRaw, length_setRaw, hlen]) SlaveAddress_A (by decide))
      (by simp [SlaveAddress_A, DefaultAckVal])
  · rfl

theorem controlGroup_eq_raw {buf : Buffer} {c : Nat} (hB : BytesOk buf)
    (hlen : buf.length = 68) (hc : c < 2 ^ 4) :
    controlGroup c buf = some (controlGroupRaw c buf) := by
  rw [controlGroup, controlGroupRaw]
  split
  · rw [setField_eq_setRaw hB (adm68 hlen Control (by decide))
      (by simpa [Control] using hc), Option.some_bind]
    rw [setField_eq_setRaw (BytesOk_setRaw hB _ _)
      (adm68 (by rw [length_setRaw, hlen]) Control_P (by decide))
      (by simp [Control_P]; exact Bool.toNat_lt _), Option.some_bind]
    exact setField_eq_setRaw (BytesOk_setRaw (BytesOk_setRaw hB _ _) _ _)
      (adm68 (by rw [length_setRaw, length_setRaw, hlen]) Control_A (by decide))
      (by simp [Control_A, DefaultAckVal])
  · rfl

theorem dataGroup_eq_raw {buf : Buffer} {data : List Nat} (hB : BytesOk buf)
    (hlen : buf.length = 68) (hd : ∀ x ∈ data, x < 256) (h47 : data.length ≤ 47) :
    dataGroup data buf = some (dataGroupRaw data buf) := by
  rw [dataGroup, dataGroupRaw]
  split
  · rw [setField_eq_setRaw hB (adm68 hlen DataLength (by decide))
      (by simp only [DataLength]; omega), Option.some_bind]
    rw [setField_eq_setRaw (BytesOk_setRaw hB _ _)
      (adm68 (by rw [length_setRaw, hlen]) DataLength_P (by decide))
      (by simp [DataLength_P]; exact Bool.toNat_lt _), Option.some_bind]
    rw [setField_eq_setRaw (BytesOk_setRaw (BytesOk_setRaw hB _ _) _ _)
      (adm68 (by rw [length_setRaw, length_setRaw, hlen]) DataLength_A (by decide))
      (by simp [DataLength_A, DefaultAckVal]), Option.some_bind]
    exact writeData_eq_raw data _ 0
      (BytesOk_setRaw (BytesOk_setRaw (BytesOk_setRaw hB _ _) _ _) _ _)
      (by rw [length_setRaw, length_setRaw, length_setRaw, hlen])
      hd (by omega)
  · rfl

theorem BytesOk_replicate68 : BytesOk (List.replicate (MaxMessageLenBytes + 4) 0) := by
  intro x hx
  rw [List.eq_of_mem_replicate hx]
  norm_num

theorem length_replicate68 :
    (List.replicate (MaxMessageLenBytes + 4) (0 : Nat)).length = 68 := by
  simp [MaxMessageLenBytes]

theorem initFields_eq_raw {broadcast master_address slave_address control : Nat}
    {data : List Nat} (hb : broadcast < 2) (hm : master_address < 2 ^ 12)
    (hs : slave_address < 2 ^ 12) (hc : control < 2 ^ 4)
    (hd : ∀ x ∈ data, x < 256) (h47 : data.length ≤ 47) :
    initFields broadcast master_address slave_address control data =
      some (initRaw broadcast master_address slave_address control data) := by
  rw [initFields, initRaw]
  rw [bcGroup_eq_raw BytesOk_replicate68 length_replicate68 hb, Option.some_bind]
  have hB1 := BytesOk_bcGroupRaw broadcast BytesOk_replicate68
  have hlen1 : (bcGroupRaw broadcast (List.replicate (MaxMessageLenBytes + 4) 0)).length = 68 := by
    rw [length_bcGroupRaw, length_replicate68]
  rw [masterGroup_eq_raw hB1 hlen1 hm, Option.some_bind]
  have hB2 := BytesOk_masterGroupRaw master_address hB1
  have hlen2 : (masterGroupRaw master_address
      (bcGroupRaw broadcast (List.replicate (MaxMessageLenBytes + 4) 0))).length = 68 := by
    rw [length_masterGroupRaw, hlen1]
  rw [slaveGroup_eq_raw hB2 hlen2 hs, Option.some_bind]
  have hB3 := BytesOk_slaveGroupRaw slave_address hB2
  have hlen3 : (slaveGroupRaw slave_address (masterGroupRaw master_address
      (bcGroupRaw broadcast (List.replicate (MaxMessageLenBytes + 4) 0)))).length = 68 := by
    rw [length_slaveGroupRaw, hlen2]
  rw [controlGroup_eq_raw hB3 hlen3 hc, Option.some_bind]
  have hB4 := BytesOk_controlGroupRaw control hB3
  have hlen4 : (controlGroupRaw control (slaveGroupRaw slave_address
      (masterGroupRaw master_address
        (bcGroupRaw broadcast (List.replicate (MaxMessageLenBytes + 4) 0))))).length = 68 := by
    rw [length_controlGroupRaw, hlen3]
  exact dataGroup_eq_raw hB4 hlen4 hd h47

theorem dataChecks_true (buf : Buffer) :
    ∀ (n i : Nat),
      (∀ j, j < n → ∃ v, getField buf (Data (i + j)) = some v ∧
        getField buf (Data_P (i + j)) = some (calculateParity v).toNat) →
      dataChecks buf i n = some true := by
  intro n
  induction n with
  | zero => intro i _; rfl
  | succ n ih =>
    intro i h
    obtain ⟨v, hv, hvp⟩ := h 0 (by omega)
    rw [Nat.add_zero] at hv hvp
    rw [dataChecks, hvp, Option.some_bind, hv, Option.some_bind,
      ih (i + 1) (fun j hj => by
        have hx := h (j + 1) (by omega)
        rwa [show i + (j + 1) = (i + 1) + j by omega] at hx)]
    simp

/-- All the field reads `isValid` performs, on a message built by the raw
constructor chain. -/
theorem initRaw_reads {b m s c : Nat} {data : List Nat}
    (hb : b < 2) (hm : m < 2 ^ 12) (hs : s < 2 ^ 12) (hc : c < 2 ^ 4)
    (hd : ∀ x ∈ data, x < 256) (h47 : data.length ≤ 47) :
    getRaw (initRaw b m s c data) MasterAddress = m ∧
    getRaw (initRaw b m s c data) MasterAddress_P = (calculateParity m).toNat ∧
    getRaw (initRaw b m s c data) SlaveAddress = s ∧
    getRaw (initRaw b m s c data) SlaveAddress_P = (calculateParity s).toNat ∧
    getRaw (initRaw b m s c data) Control = c ∧
    getRaw (initRaw b m s c data) Control_P = (calculateParity c).toNat ∧
    getRaw (initRaw b m s c data) DataLength = data.length ∧
    getRaw (initRaw b m s c data) DataLength_P =
      (calculateParity data.length).toNat ∧
    ∀ j (hj : j < data.length),
      getRaw (initRaw b m s c data) (Data j) = data.get ⟨j, hj⟩ ∧
      getRaw (initRaw b m s c data) (Data_P j) =
        (calculateParity (data.get ⟨j, hj⟩)).toNat := by
  have hB0 := BytesOk_replicate68
  have hlen0 := length_replicate68
  have hB1 := BytesOk_bcGroupRaw b hB0
  have hlen1 : (bcGroupRaw b (List.replicate (MaxMessageLenBytes + 4) 0)).length = 68 := by
    rw [length_bcGroupRaw, hlen0]
  have hB2 := BytesOk_masterGroupRaw m hB1
  have hlen2 : (masterGroupRaw m
      (bcGroupRaw b (List.replicate (MaxMessageLenBytes + 4) 0))).length = 68 := by
    rw [length_masterGroupRaw, hlen1]
  have hB3 := BytesOk_slaveGroupRaw s hB2
  have hlen3 : (slaveGroupRaw s (masterGroupRaw m
      (bcGroupRaw b (List.replicate (MaxMessageLenBytes + 4) 0)))).length = 68 := by
    rw [length_slaveGroupRaw, hlen2]
  have hB4 := BytesOk_controlGroupRaw c hB3
  have hlen4 : (controlGroupRaw c (slaveGroupRaw s (masterGroupRaw m
      (bcGroupRaw b (List.replicate (MaxMessageLenBytes + 4) 0))))).length = 68 := by
    rw [length_controlGroupRaw, hlen3]
  rw [initRaw]
  obtain ⟨hMr, hMPr⟩ := masterGroupRaw_reads hB1 hlen1 hm
    (by rw [getRaw_bcGroupRaw_disjoint hB0 hlen0 hb (by decide) (Or.inr (by decide))]
        exact getRaw_replicate_zero _)
    (by rw [getRaw_bcGroupRaw_disjoint hB0 hlen0 hb (by decide) (Or.inr (by decide))]
        exact getRaw_replicate_zero _)
  obtain ⟨hSr, hSPr⟩ := slaveGroupRaw_reads hB2 hlen2 hs
    (by rw [getRaw_masterGroupRaw_disjoint hB1 hlen1 hm (by decide) (Or.inr (by decide)),
          getRaw_bcGroupRaw_disjoint hB0 hlen0 hb (by decide) (Or.inr (by decide))]
        exact getRaw_replicate_zero _)
    (by rw [getRaw_masterGroupRaw_disjoint hB1 hlen1 hm (by decide) (Or.inr (by decide)),
          getRaw_bcGroupRaw_disjoint hB0 hlen0 hb (by decide) (Or.inr (by decide))]
        exact getRaw_replicate_zero _)
  obtain ⟨hCr, hCPr⟩ := controlGroupRaw_reads hB3 hlen3 hc
    (by rw [getRaw_slaveGroupRaw_disjoint hB2 hlen2 hs (by decide) (Or.inr (by decide)),
          getRaw_masterGroupRaw_disjoint hB1 hlen1 hm (by decide) (Or.inr (by decide)),
          getRaw_bcGroupRaw_disjoint hB0 hlen0 hb (by decide) (Or.inr (by decide))]
        exact getRaw_replicate_zero _)
    (by rw [getRaw_slaveGroupRaw_disjoint hB2 hlen2 hs (by decide) (Or.inr (by decide)),
          getRaw_masterGroupRaw_disjoint hB1 hlen1 hm (by decide) (Or.inr (by decide)),
          getRaw_bcGroupRaw_disjoint hB0 hlen0 hb (by decide) (Or.inr (by decide))]
        exact getRaw_replicate_zero _)
  obtain ⟨hLr, hLPr, hDr⟩ := dataGroupRaw_reads hB4 hlen4 hd h47
    (by rw [getRaw_controlGroupRaw_disjoint hB3 hlen3 hc (by decide) (Or.inr (by decide)),
          getRaw_slaveGroupRaw_disjoint hB2 hlen2 hs (by decide) (Or.inr (by decide)),
          getRaw_masterGroupRaw_disjoint hB1 hlen1 hm (by decide) (Or.inr (by decide)),
          getRaw_bcGroupRaw_disjoint hB0 hlen0 hb (by decide) (Or.inr (by decide))]
        exact getRaw_replicate_zero _)
    (by rw [getRaw_controlGroupRaw_disjoint hB3 hlen3 hc (by decide) (Or.inr (by decide)),
          getRaw_slaveGroupRaw_disjoint hB2 hlen2 hs (by decide) (Or.inr (by decide)),
          getRaw_masterGroupRaw_disjoint hB1 hlen1 hm (by decide) (Or.inr (by decide)),
          getRaw_bcGroupRaw_disjoint hB0 hlen0 hb (by decide) (Or.inr (by decide))]
        exact getRaw_replicate_zero _)
  refine ⟨?_, ?_, ?_, ?_, ?_, ?_, hLr, hLPr, hDr⟩
  · rw [getRaw_dataGroupRaw_lo hB4 hlen4 hd h47 (by decide) (by decide),
      getRaw_controlGroupRaw_disjoint hB3 hlen3 hc (by decide) (Or.inl (by decide)),
      getRaw_slaveGroupRaw_disjoint hB2 hlen2 hs (by decide) (Or.inl (by decide))]
    exact hMr
  · rw [getRaw_dataGroupRaw_lo hB4 hlen4 hd h47 (by decide) (by decide),
      getRaw_controlGroupRaw_disjoint hB3 hlen3 hc (by decide) (Or.inl (by decide)),
      getRaw_slaveGroupRaw_disjoint hB2 hlen2 hs (by decide) (Or.inl (by decide))]
    exact hMPr
  · rw [getRaw_dataGroupRaw_lo hB4 hlen4 hd h47 (by decide) (by decide),
      getRaw_controlGroupRaw_disjoint hB3 hlen3 hc (by decide) (Or.inl (by decide))]
    exact hSr
  · rw [getRaw_dataGroupRaw_lo hB4 hlen4 hd h47 (by decide) (by decide),
      getRaw_controlGroupRaw_disjoint hB3 hlen3 hc (by decide) (Or.inl (by decide))]
    exact hSPr
  · rw [getRaw_dataGroupRaw_lo hB4 hlen4 hd h47 (by decide) (by decide)]
    exact hCr
  · rw [getRaw_dataGroupRaw_lo hB4 hlen4 hd h47 (by decide) (by decide)]
    exact hCPr

theorem length_initRaw (b m s c : Nat) (data : List Nat) :
    (initRaw b m s c data).length = 68 := by
  rw [initRaw, length_dataGroupRaw, length_controlGroupRaw, length_slaveGroupRaw,
    length_masterGroupRaw, length_bcGroupRaw, length_replicate68]

theorem isValid_initRaw {b m s c : Nat} {data : List Nat}
    (hb : b < 2) (hm : m < 2 ^ 12) (hs : s < 2 ^ 12) (hc : c < 2 ^ 4)
    (hd : ∀ x ∈ data, x < 256) (h47 : data.length ≤ 47) :
    isValid (initRaw b m s c data) = some true := by
  obtain ⟨hM, hMP, hS, hSP, hC, hCP, hL, hLP, hData⟩ :=
    initRaw_reads hb hm hs hc hd h47
  have hlenM := length_initRaw b m s c data
  rw [isValid]
  rw [getField_eq_getRaw (f := MasterAddress_P) (by rw [hlenM]; decide),
    Option.some_bind]
  rw [getField_eq_getRaw (f := MasterAddress) (by rw [hlenM]; decide),
    Option.some_bind]
  rw [getField_eq_getRaw (f := SlaveAddress_P) (by rw [hlenM]; decide),
    Option.some_bind]
  rw [getField_eq_getRaw (f := SlaveAddress) (by rw [hlenM]; decide),
    Option.some_bind]
  rw [getField_eq_getRaw (f := Control_P) (by rw [hlenM]; decide),
    Option.some_bind]
  rw [getField_eq_getRaw (f := Control) (by rw [hlenM]; decide),
    Option.some_bind]
  rw [getField_eq_getRaw (f := DataLength) (by rw [hlenM]; decide),
    Option.some_bind]
  rw [getField_eq_getRaw (f := DataLength_P) (by rw [hlenM]; decide),
    Option.some_bind]
  rw [hM, hMP, hS, hSP, hC, hCP, hL, hLP]
  rw [dataChecks_true _ data.length 0 (fun j hj => by
    obtain ⟨hgv, hgp⟩ := hData j hj
    refine ⟨data.get ⟨j, hj⟩, ?_, ?_⟩
    · rw [Nat.zero_add, getField_eq_getRaw (adm_Data hlenM (by omega)).1, hgv]
    · rw [Nat.zero_add, getField_eq_getRaw (adm_Data_P hlenM (by omega)).1, hgp])]
  simp

/-- C5 as stated is false for the token-string constructor: the token
string `"- 1001 440"` parses a 13-bit master address; `setField` writes it
unmasked, the stored 12-bit field reads back as `0x001` while the stored
parity bit was computed over `0x1001`, so `isValid` reports `false`. -/
theorem C5_parity_counterexample :
    (fromString ("- 1001 440".toList)).bind isValid = some false := by decide

/-- C5 (amended): every message built by the structured-field constructor
with in-range field values, or by the token-string constructor from tokens
whose parsed values are in range (addresses below `2 ^ 12`, data bytes
below 256), stores `parity = oddParity(fieldValue)` for every
parity-carrying field, so `isValid` returns `True` on it. (Out-of-range
token values can corrupt neighbouring bits and break the invariant, as the
counterexample shows.) -/
theorem C5_parity_amended :
    (∀ (broadcast master_address slave_address control : Nat) (data : List Nat)
      (msg : Buffer), broadcast < 2 → master_address < 2 ^ 12 →
      slave_address < 2 ^ 12 → control < 2 ^ 4 → (∀ x ∈ data, x < 256) →
      initFields broadcast master_address slave_address control data = some msg →
      isValid msg = some true) ∧
    (∀ (str p0 p1 p2 : List Char) (rest : List (List Char))
      (master_address slave_address : Nat) (data : List Nat) (msg : Buffer),
      splitWs (str.filter (· ≠ ':')) = p0 :: p1 :: p2 :: rest →
      parseHex p1 = some master_address → parseHex p2 = some slave_address →
      rest.mapM parseHex = some data → master_address < 2 ^ 12 →
      slave_address < 2 ^ 12 → (∀ x ∈ data, x < 256) →
      fromString str = some msg → isValid msg = some true) := by
  have main : ∀ (broadcast master_address slave_address control : Nat)
      (data : List Nat) (msg : Buffer), broadcast < 2 → master_address < 2 ^ 12 →
      slave_address < 2 ^ 12 → control < 2 ^ 4 → (∀ x ∈ data, x < 256) →
      initFields broadcast master_address slave_address control data = some msg →
      isValid msg = some true := by
    intro broadcast master_address slave_address control data msg hb hm hs hc hd h
    have h47 : data.length ≤ 47 := by
      by_contra h48
      rw [initFields_none _ _ _ _ data (by omega)] at h
      cases h
    rw [initFields_eq_raw hb hm hs hc hd h47] at h
    cases h
    exact isValid_initRaw hb hm hs hc hd h47
  refine ⟨main, ?_⟩
  intro str p0 p1 p2 rest master_address slave_address data msg hsplit hp1 hp2
    hdata hm hs hd h
  rw [fromString, hsplit] at h
  have h' : ((parseHex p1).bind fun master_address =>
      (parseHex p2).bind fun slave_address =>
        (rest.mapM parseHex).bind fun data =>
          initFields (if p0 = ['B'] then 0 else 1) master_address slave_address
            15 data) = some msg := h
  rw [hp1, Option.some_bind, hp2, Option.some_bind, hdata, Option.some_bind] at h'
  exact main _ _ _ _ _ msg (by split <;> norm_num) hm hs (by norm_num) hd h'

theorem C5_parity_amended_witness :
    (initFields 1 0x190 0x440 15 [0x25, 0x74]).bind isValid = some true := by
  have h1 : initFields 1 0x190 0x440 15 [0x25, 0x74] =
      some (initRaw 1 0x190 0x440 15 [0x25, 0x74]) := by decide
  rw [h1, Option.some_bind]
  exact C5_parity_amended.1 1 0x190 0x440 15 [0x25, 0x74]
    (initRaw 1 0x190 0x440 15 [0x25, 0x74]) (by decide) (by decide) (by decide)
    (by decide) (by decide) h1

end IEBus

